import Mathlib

/-!
Verification of the file-organizer engine (`file.py`): a shallow embedding of
the core classes `FileCategory`, `FileInfo` and `FileOrganizerWorker`
(`organize_files`, `get_category_for_extension`, `move_file`,
`handle_uncategorized_files`), together with proofs of the specified
properties.

Modelling conventions:
* Python strings are `List Char`; `str.lower()` is `List.map Char.toLower`
  (CPython's lowering restricted to the basic-latin range, exactly as
  `Char.toLower` is).
* `pathlib.Path` is a list of components; `Path.name`, `Path.stem`,
  `Path.suffix` and `Path.parents` follow CPython's definitions.
* The filesystem is the list of existing paths; `shutil.move` and
  `Path.mkdir` are fallible, with an environment `FsEnv` deciding which
  operations raise (permission errors, disk full, ...).
* Qt signal emissions are an accumulated list of `Event`s; message strings
  are represented by their constructor and arguments.
* The cooperative stop flag is a function `Nat → Bool` giving the value
  observed at the k-th check of `self.should_stop`.
-/

set_option maxHeartbeats 1000000

namespace FileOrganizer

/-- Python strings, modelled as lists of characters. -/
abbrev Str := List Char

/-- Embedding of Python `str.lower()`. -/
def lowerStr (s : Str) : Str := s.map Char.toLower

/-- A filesystem path (`pathlib.Path`), as its list of components. -/
structure FsPath where
  components : List Str
deriving DecidableEq, Repr

/-- `path / component` (pathlib's `/` operator with a single name). -/
def FsPath.child (p : FsPath) (s : Str) : FsPath :=
  ⟨p.components ++ [s]⟩

/-- `Path.name`: the final component. -/
def FsPath.name (p : FsPath) : Str :=
  p.components.getLast?.getD []

/-- `Path.parents`: every proper ancestor of the path. -/
def FsPath.parentsList (p : FsPath) : List FsPath :=
  (List.range p.components.length).map (fun k => ⟨p.components.take k⟩)

/-- Index of the last `'.'` in a name, if any (CPython's `name.rfind('.')`). -/
def lastDotIdx (s : Str) : Option Nat :=
  ((List.range s.length).filter (fun i => s.get? i == some '.')).getLast?

/-- `Path.suffix`: the extension of the final component, per CPython
(`name[i:]` when `0 < i < len(name) - 1` for the last dot index `i`). -/
def nameSuffix (s : Str) : Str :=
  match lastDotIdx s with
  | some i => if 0 < i ∧ i < s.length - 1 then s.drop i else []
  | none => []

/-- `Path.stem`: the final component without its extension, per CPython. -/
def nameStem (s : Str) : Str :=
  match lastDotIdx s with
  | some i => if 0 < i ∧ i < s.length - 1 then s.take i else s
  | none => s

def FsPath.pathSuffix (p : FsPath) : Str := nameSuffix p.name

def FsPath.stem (p : FsPath) : Str := nameStem p.name

/-- `FileCategory` (file.py lines 19-34). -/
structure FileCategory where
  name : Str
  extensions : List Str
  folder_name : Str
  file_count : Nat
  enabled : Bool
deriving DecidableEq, Repr

/-- `FileCategory.__init__` (lines 20-25): extensions lower-cased at
construction, count zero, enabled. -/
def FileCategory.init (name : Str) (extensions : List Str) (folder_name : Str) : FileCategory :=
  { name := name
    extensions := extensions.map lowerStr
    folder_name := folder_name
    file_count := 0
    enabled := true }

/-- `FileCategory.matches_extension` (lines 27-28). -/
def FileCategory.matches_extension (c : FileCategory) (extension : Str) : Bool :=
  decide (lowerStr extension ∈ c.extensions)

/-- `FileCategory.increment_count` (lines 30-31). -/
def FileCategory.increment_count (c : FileCategory) : FileCategory :=
  { c with file_count := c.file_count + 1 }

/-- `FileCategory.reset_count` (lines 33-34). -/
def FileCategory.reset_count (c : FileCategory) : FileCategory :=
  { c with file_count := 0 }

/-- `FileInfo` (lines 37-43); `size` and `modified_time` are never read by
the engine and are omitted. -/
structure FileInfo where
  path : FsPath
  name : Str
  extension : Str
deriving DecidableEq, Repr

/-- `FileInfo.__init__` (lines 38-41): name from the path, extension the
lower-cased suffix. -/
def FileInfo.ofPath (p : FsPath) : FileInfo :=
  { path := p, name := p.name, extension := lowerStr p.pathSuffix }

/-- `FileOrganizerWorker.get_category_for_extension` (lines 147-151). -/
def get_category_for_extension (categories : List FileCategory) (extension : Str) :
    Option FileCategory :=
  match categories with
  | [] => none
  | c :: rest =>
    if c.enabled && c.matches_extension extension then some c
    else get_category_for_extension rest extension

/-- Decimal representation of a natural number (Python's `str(counter)` in
the f-string of the collision loop). -/
def natStr (n : Nat) : Str :=
  if n = 0 then ['0'] else ((Nat.digits 10 n).map Nat.digitChar).reverse

/-- The collision-renaming pattern `f"{base_name}_{counter}{extension}"`
(lines 164 and 192). -/
def collisionName (stem ext : Str) (counter : Nat) : Str :=
  stem ++ '_' :: (natStr counter ++ ext)

/-- The `while destination.exists()` loop shared by `move_file`
(lines 158-166) and `handle_uncategorized_files` (lines 186-194), with fuel
(`chooseDest` supplies fuel that provably always suffices: the filesystem is
finite and the candidate names are pairwise distinct). -/
def destLoop (fs : List FsPath) (dir : FsPath) (stem ext : Str) :
    Nat → FsPath → Nat → Option FsPath
  | 0, _, _ => none
  | fuel + 1, destination, counter =>
    if destination ∈ fs then
      destLoop fs dir stem ext fuel (dir.child (collisionName stem ext counter)) (counter + 1)
    else some destination

/-- Destination selection of `move_file` / `handle_uncategorized_files`:
start from `dir / name`, with counter 1. -/
def chooseDest (fs : List FsPath) (dir : FsPath) (nm stem ext : Str) : Option FsPath :=
  destLoop fs dir stem ext (fs.length + 2) (dir.child nm) 1

/-- Which filesystem operations fail (permission, disk full, cross-device
errors...). Fixing this per run makes the fallible operations deterministic
functions of the environment. -/
structure FsEnv where
  mkdirFails : FsPath → Bool
  moveFails : FsPath → FsPath → Bool

/-- Exceptions raised by the modelled filesystem operations. -/
inductive PyErr where
  | mkdirErr (p : FsPath)
  | moveErr (src dst : FsPath)
deriving DecidableEq, Repr

/-- The filesystem: the list of existing entries (files and directories). -/
abbrev Fs := List FsPath

/-- `Path.mkdir(parents=True, exist_ok=True)`: no-op if the path exists,
otherwise creates it (and its ancestors) or raises. -/
def mkdirParents (env : FsEnv) (fs : Fs) (p : FsPath) : Except PyErr Fs :=
  if p ∈ fs then .ok fs
  else if env.mkdirFails p then .error (.mkdirErr p)
  else .ok (p :: p.parentsList ++ fs)

/-- `shutil.move(src, dst)`: removes the source entry, creates the
destination entry, or raises. -/
def shutilMove (env : FsEnv) (fs : Fs) (src dst : FsPath) : Except PyErr Fs :=
  if env.moveFails src dst then .error (.moveErr src dst)
  else .ok (dst :: fs.erase src)

/-- `status_updated` messages, by emit site. -/
inductive StatusMsg where
  | scanning
  | processing (nm : Str)
  | complete
deriving DecidableEq, Repr

/-- `log_updated` messages, represented by emit site and arguments. -/
inductive LogMsg where
  | startingRun (dry : Bool)
  | sourceIs (p : FsPath)
  | destIs (p : FsPath)
  | noFiles
  | foundFiles (n : Nat)
  | dryWouldMove (nm : Str) (folder : Str)
  | moved (nm : Str) (folder : Str)
  | moveError (nm : Str) (e : PyErr)
  | movedUncategorized (nm : Str)
  | uncatMoveError (nm : Str) (e : PyErr)
  | complete (n : Nat)
deriving DecidableEq, Repr

/-- `error_occurred` messages: the scan-failure message of line 87, or the
stringified uncaught exception of line 70. -/
inductive ErrMsg where
  | scanFailed
  | uncaught (e : PyErr)
deriving DecidableEq, Repr

/-- The summary dict emitted through `finished` (lines 137-142). -/
structure Summary where
  total_files : Nat
  organized : Nat
  uncategorized : Nat
  categories : List (Str × Nat)
deriving DecidableEq, Repr

/-- Qt signal emissions of the worker, in emission order. -/
inductive Event where
  | progress (n : Nat)
  | status (s : StatusMsg)
  | log (m : LogMsg)
  | finished (s : Summary)
  | error (e : ErrMsg)
deriving DecidableEq, Repr

/-- Ghost per-file outcome recorded by the embedding for specification
purposes; it does not influence the computation. -/
inductive FileOutcome where
  | skippedDest
  | organizedOk
  | moveFailed
  | uncat
deriving DecidableEq, Repr

/-- Result of `move_file`: success flag, filesystem, the (possibly
incremented) category object, emitted events, and the performed move
(ghost). -/
structure MoveResult where
  ok : Bool
  fs : Fs
  category : FileCategory
  events : List Event
  moves : List (FsPath × FsPath)
deriving Repr

/-- `FileOrganizerWorker.move_file` (lines 153-175). The `chooseDest = none`
branch is unreachable (`chooseDest_isSome` below); it returns failure so the
function is total. -/
def move_file (env : FsEnv) (dest_dir : FsPath) (fs : Fs) (file_info : FileInfo)
    (category : FileCategory) : MoveResult :=
  let category_path := dest_dir.child category.folder_name
  match mkdirParents env fs category_path with
  | .error e => ⟨false, fs, category, [.log (.moveError file_info.name e)], []⟩
  | .ok fs₁ =>
    match chooseDest fs₁ category_path file_info.name file_info.path.stem
        file_info.path.pathSuffix with
    | none => ⟨false, fs₁, category, [.log (.moveError file_info.name (.mkdirErr category_path))], []⟩
    | some destination =>
      match shutilMove env fs₁ file_info.path destination with
      | .error e => ⟨false, fs₁, category, [.log (.moveError file_info.name e)], []⟩
      | .ok fs₂ =>
        ⟨true, fs₂, category.increment_count,
          [.log (.moved file_info.name category.folder_name)],
          [(file_info.path, destination)]⟩

/-- Write-back of a mutated category object: in Python,
`get_category_for_extension` returns an alias into `self.categories`, so
mutating the returned object updates the registry at the position of the
first enabled match. -/
def setFirstEnabledMatch (cats : List FileCategory) (extension : Str)
    (c' : FileCategory) : List FileCategory :=
  match cats with
  | [] => []
  | c :: rest =>
    if c.enabled && c.matches_extension extension then c' :: rest
    else c :: setFirstEnabledMatch rest extension c'

/-- State threaded through the per-file loop of `organize_files`. -/
structure PState where
  fs : Fs
  cats : List FileCategory
  organized : Nat
  uncategorized : List FileInfo
  events : List Event
  moves : List (FsPath × FsPath)
  outcomes : List (FileInfo × FileOutcome)
deriving Repr

/-- Body of the per-file loop of `organize_files` (lines 115-129): skip files
under the destination root, classify, then simulate / move / collect as
uncategorized. -/
def processFile (env : FsEnv) (dest_dir : FsPath) (dry_run : Bool)
    (st : PState) (file_info : FileInfo) : PState :=
  if dest_dir ∈ file_info.path.parentsList then
    { st with outcomes := st.outcomes ++ [(file_info, .skippedDest)] }
  else
    match get_category_for_extension st.cats file_info.extension with
    | some category =>
      if category.enabled then
        if dry_run then
          { st with
            cats := setFirstEnabledMatch st.cats file_info.extension category.increment_count
            organized := st.organized + 1
            events := st.events ++ [.log (.dryWouldMove file_info.name category.folder_name)]
            outcomes := st.outcomes ++ [(file_info, .organizedOk)] }
        else
          let r := move_file env dest_dir st.fs file_info category
          { st with
            fs := r.fs
            cats := setFirstEnabledMatch st.cats file_info.extension r.category
            organized := if r.ok then st.organized + 1 else st.organized
            events := st.events ++ r.events
            moves := st.moves ++ r.moves
            outcomes := st.outcomes ++
              [(file_info, if r.ok then FileOutcome.organizedOk else FileOutcome.moveFailed)] }
      else
        { st with
          uncategorized := st.uncategorized ++ [file_info]
          outcomes := st.outcomes ++ [(file_info, .uncat)] }
    | none =>
      { st with
        uncategorized := st.uncategorized ++ [file_info]
        outcomes := st.outcomes ++ [(file_info, .uncat)] }

/-- The per-file loop of `organize_files` (lines 107-129): a stop-flag check
at each iteration boundary, then the progress and status emissions, then the
body. Returns the final state, the cumulative number of stop-flag reads, and
whether the loop observed the stop flag. The Python progress value
`int((i / len(files)) * 100)` is modelled as `i * 100 / total` (the
floating-point rounding of CPython is abstracted; no claim depends on the
value). -/
def processLoop (env : FsEnv) (dest_dir : FsPath) (dry_run : Bool) (total : Nat)
    (stopRead : Nat → Bool) :
    List FileInfo → Nat → Nat → PState → PState × Nat × Bool
  | [], _, checks, st => (st, checks, false)
  | file_info :: rest, i, checks, st =>
    if stopRead checks then (st, checks + 1, true)
    else
      let st₁ := { st with events := st.events ++
        [.progress (i * 100 / total), .status (.processing file_info.name)] }
      processLoop env dest_dir dry_run total stopRead rest (i + 1) (checks + 1)
        (processFile env dest_dir dry_run st₁ file_info)

/-- The scan loop of `organize_files` (lines 81-85): `rglob` entries with
their `is_file()` status, a stop-flag check before each entry. -/
def scanLoop (stopRead : Nat → Bool) :
    List (FsPath × Bool) → Nat → List FileInfo → List FileInfo × Nat × Bool
  | [], checks, acc => (acc, checks, false)
  | entry :: rest, checks, acc =>
    if stopRead checks then (acc, checks + 1, true)
    else scanLoop stopRead rest (checks + 1)
      (acc ++ if entry.2 then [FileInfo.ofPath entry.1] else [])

/-- Per-file loop of `handle_uncategorized_files` (lines 184-199): each
iteration is inside its own `try`, so a failed move only logs. The
`chooseDest = none` branch is unreachable (`chooseDest_isSome`). -/
def handleUncatLoop (env : FsEnv) (uncategorized_path : FsPath) :
    List FileInfo → Fs → List Event → List (FsPath × FsPath) →
    Fs × List Event × List (FsPath × FsPath)
  | [], fs, evs, mvs => (fs, evs, mvs)
  | file_info :: rest, fs, evs, mvs =>
    match chooseDest fs uncategorized_path file_info.name file_info.path.stem
        file_info.path.pathSuffix with
    | none =>
      handleUncatLoop env uncategorized_path rest fs
        (evs ++ [.log (.uncatMoveError file_info.name (.mkdirErr uncategorized_path))]) mvs
    | some destination =>
      match shutilMove env fs file_info.path destination with
      | .error e =>
        handleUncatLoop env uncategorized_path rest fs
          (evs ++ [.log (.uncatMoveError file_info.name e)]) mvs
      | .ok fs' =>
        handleUncatLoop env uncategorized_path rest fs'
          (evs ++ [.log (.movedUncategorized file_info.name)])
          (mvs ++ [(file_info.path, destination)])

/-- The fixed fallback folder name `"Uncategorized"` (line 181). -/
def uncategorizedStr : Str := "Uncategorized".data

/-- `handle_uncategorized_files` (lines 177-199): early return on an empty
list, then a `mkdir` of the `Uncategorized` folder that is NOT inside the
per-file `try` — its failure propagates out of `organize_files` — then the
per-file loop. -/
def handle_uncategorized_files (env : FsEnv) (dest_dir : FsPath)
    (uncategorized_files : List FileInfo) (fs : Fs) :
    Except PyErr (Fs × List Event × List (FsPath × FsPath)) :=
  if uncategorized_files = [] then .ok (fs, [], [])
  else
    match mkdirParents env fs (dest_dir.child uncategorizedStr) with
    | .error e => .error e
    | .ok fs₁ =>
      .ok (handleUncatLoop env (dest_dir.child uncategorizedStr) uncategorized_files fs₁ [] [])

/-- The worker's construction parameters (lines 55-61). -/
structure Worker where
  source_dir : FsPath
  dest_dir : FsPath
  categories : List FileCategory
  dry_run : Bool
deriving Repr

/-- How a run ended. -/
inductive RunOutcome where
  | completed (s : Summary)
  | stopped
  | scanFailed
  | raised (e : PyErr)
deriving DecidableEq, Repr

/-- Everything observable about one execution of `organize_files`. -/
structure RunResult where
  events : List Event
  fs : Fs
  cats : List FileCategory
  moves : List (FsPath × FsPath)
  outcomes : List (FileInfo × FileOutcome)
  scanned : List FileInfo
  checksUsed : Nat
  outcome : RunOutcome
deriving Repr

/-- The count-reset loop of `organize_files` (lines 100-102): note the
`if category.enabled` guard — only enabled categories are reset. -/
def resetEnabledCounts (cats : List FileCategory) : List FileCategory :=
  cats.map (fun c => if c.enabled then c.reset_count else c)

/-- The zero summary emitted when no files are found (line 92). -/
def zeroSummary : Summary := ⟨0, 0, 0, []⟩

/-- The per-category part of the summary (line 141): categories with a
non-zero count, in registry order. -/
def summaryCategories (cats : List FileCategory) : List (Str × Nat) :=
  (cats.filter (fun c => decide (0 < c.file_count))).map (fun c => (c.name, c.file_count))

/-- The three opening log lines and the scanning status (lines 73-78). -/
def startEvents (w : Worker) : List Event :=
  [.log (.startingRun w.dry_run), .log (.sourceIs w.source_dir),
   .log (.destIs w.dest_dir), .status .scanning]

/-- The part of a category that classification depends on (and that the run
never mutates): everything except the running count. -/
def catShape (c : FileCategory) : Str × List Str × Str × Bool :=
  (c.name, c.extensions, c.folder_name, c.enabled)

/-- Number of files with a given ghost outcome. -/
def countOutcome (outs : List (FileInfo × FileOutcome)) (o : FileOutcome) : Nat :=
  (outs.filter (fun x => x.2 == o)).length

/-- Is an event the `finished` (summary) emission? -/
def isFinishedEvent (e : Event) : Bool :=
  match e with
  | .finished _ => true
  | _ => false

/-- A scanned file the run collects as uncategorized: not skipped (not under
the destination root) and matching no enabled category of the registry. -/
def isUncatFile (dest_dir : FsPath) (cats : List FileCategory) (f : FileInfo) : Bool :=
  decide (dest_dir ∉ f.path.parentsList) &&
    (get_category_for_extension cats f.extension).isNone

/-- `FileOrganizerWorker.organize_files` (lines 72-145). `rglob` is the
scan's input: either the snapshot of entries (with `is_file()` flags) or a
scan exception; `stopRead k` is the value of `self.should_stop` observed at
the k-th check. -/
def organize_files (env : FsEnv) (w : Worker)
    (rglob : Except Unit (List (FsPath × Bool))) (stopRead : Nat → Bool)
    (fs₀ : Fs) : RunResult :=
  match rglob with
  | .error _ =>
    { events := startEvents w ++ [.error .scanFailed], fs := fs₀,
      cats := w.categories, moves := [], outcomes := [], scanned := [],
      checksUsed := 0, outcome := .scanFailed }
  | .ok entries =>
    match scanLoop stopRead entries 0 [] with
    | (files, checks₁, aborted₁) =>
      if aborted₁ then
        { events := startEvents w, fs := fs₀, cats := w.categories, moves := [],
          outcomes := [], scanned := files, checksUsed := checks₁,
          outcome := .stopped }
      else if files = [] then
        { events := startEvents w ++ [.log .noFiles, .finished zeroSummary],
          fs := fs₀, cats := w.categories, moves := [], outcomes := [],
          scanned := files, checksUsed := checks₁,
          outcome := .completed zeroSummary }
      else
        match (if w.dry_run then .ok fs₀ else mkdirParents env fs₀ w.dest_dir :
            Except PyErr Fs) with
        | .error e =>
          { events := startEvents w ++ [.log (.foundFiles files.length)],
            fs := fs₀, cats := w.categories, moves := [], outcomes := [],
            scanned := files, checksUsed := checks₁, outcome := .raised e }
        | .ok fs₁ =>
          match processLoop env w.dest_dir w.dry_run files.length stopRead files 0 checks₁
              ⟨fs₁, resetEnabledCounts w.categories, 0, [],
                startEvents w ++ [.log (.foundFiles files.length)], [], []⟩ with
          | (st, checks₂, aborted₂) =>
            if aborted₂ then
              { events := st.events, fs := st.fs, cats := st.cats,
                moves := st.moves, outcomes := st.outcomes, scanned := files,
                checksUsed := checks₂, outcome := .stopped }
            else
              match (if w.dry_run then .ok (st.fs, [], []) else
                  handle_uncategorized_files env w.dest_dir st.uncategorized st.fs :
                  Except PyErr (Fs × List Event × List (FsPath × FsPath))) with
              | .error e =>
                { events := st.events, fs := st.fs, cats := st.cats,
                  moves := st.moves, outcomes := st.outcomes, scanned := files,
                  checksUsed := checks₂, outcome := .raised e }
              | .ok (fs₂, evsU, mvsU) =>
                { events := st.events ++ evsU ++
                    [.progress 100, .status .complete,
                     .log (.complete st.organized),
                     .finished ⟨files.length, st.organized,
                       st.uncategorized.length, summaryCategories st.cats⟩],
                  fs := fs₂, cats := st.cats, moves := st.moves ++ mvsU,
                  outcomes := st.outcomes, scanned := files,
                  checksUsed := checks₂,
                  outcome := .completed ⟨files.length, st.organized,
                    st.uncategorized.length, summaryCategories st.cats⟩ }

/-- `FileOrganizerWorker.run` (lines 66-70): `organize_files` under a
catch-all that emits `error_occurred` with the uncaught exception. -/
def runWorker (env : FsEnv) (w : Worker) (rglob : Except Unit (List (FsPath × Bool)))
    (stopRead : Nat → Bool) (fs₀ : Fs) : RunResult :=
  let r := organize_files env w rglob stopRead fs₀
  match r.outcome with
  | .raised e => { r with events := r.events ++ [.error (.uncaught e)] }
  | _ => r

/-- An environment in which every filesystem operation succeeds. -/
def noFailEnv : FsEnv := ⟨fun _ => false, fun _ _ => false⟩

/-- A stop flag that is never set. -/
def noStop : Nat → Bool := fun _ => false

/-- Concrete strings for the example instances used by witnesses and
counterexamples. -/
def docsStr : Str := "Docs".data

def mediaStr : Str := "Media".data

def dotLogStr : Str := ".log".data

def documentsStr : Str := "Documents".data

def dotTxtStr : Str := ".txt".data

def aTxtStr : Str := "A.TXT".data

def destStr : Str := "dest".data

def reportPdfStr : Str := "report.pdf".data

def report1PdfStr : Str := "report_1.pdf".data

def reportStr : Str := "report".data

def dotPdfStr : Str := ".pdf".data

/-- Example category: `Docs`, declaring `.log`. -/
def docsCat : FileCategory := FileCategory.init docsStr [dotLogStr] docsStr

/-- Example category: `Media`, also declaring `.log`. -/
def mediaCat : FileCategory := FileCategory.init mediaStr [dotLogStr] mediaStr

/-- Example destination directory `dest`. -/
def destDir : FsPath := ⟨[destStr]⟩

/-- Example filesystem: `dest/report.pdf` and `dest/report_1.pdf` exist. -/
def reportFs : Fs := [destDir.child reportPdfStr, destDir.child report1PdfStr]

def txtStr : Str := "Txt".data

def txtFolderStr : Str := "TxtFolder".data

/-- Example enabled category routing `.txt` files. -/
def catTxt : FileCategory := FileCategory.init txtStr [dotTxtStr] txtFolderStr

/-- Example disabled category carrying a stale count of 5 from an earlier
run (it was enabled then, and got disabled before this run). -/
def staleCat : FileCategory :=
  { name := mediaStr, extensions := [dotLogStr], folder_name := mediaStr,
    file_count := 5, enabled := false }

/-- Example source directory and files beneath it. -/
def srcDir : FsPath := ⟨["src".data]⟩

def fileA : FsPath := srcDir.child ("a.txt".data)

def fileB : FsPath := srcDir.child ("b.bin".data)

/-- Real-mode worker whose registry carries the stale disabled category. -/
def wStale : Worker := ⟨srcDir, destDir, [catTxt, staleCat], false⟩

/-- Real-mode worker with only the `.txt` category. -/
def wReal : Worker := ⟨srcDir, destDir, [catTxt], false⟩

/-- Environment in which creating `dest/Uncategorized` fails and every other
operation succeeds. -/
def envUncatFail : FsEnv :=
  ⟨fun p => p == destDir.child uncategorizedStr, fun _ _ => false⟩

/-- Environment in which every `shutil.move` fails (e.g. no permission on
the target device) while directory creation succeeds. -/
def envMoveFail : FsEnv := ⟨fun _ => false, fun _ _ => true⟩

/-- C1 (classification, first-match-wins): the returned category is the first
in registry order that is enabled and whose (lower-cased) extension set
contains the lower-cased extension; `none` means no enabled category
matches. Determinism is inherent: the result is a function of the registry
and the extension alone. -/
theorem get_category_first_match (categories : List FileCategory) (extension : Str) :
    (∀ c, get_category_for_extension categories extension = some c →
      ∃ l₁ l₂, categories = l₁ ++ c :: l₂ ∧ c.enabled = true ∧
        lowerStr extension ∈ c.extensions ∧
        ∀ c' ∈ l₁, ¬(c'.enabled = true ∧ lowerStr extension ∈ c'.extensions))
    ∧ (get_category_for_extension categories extension = none →
      ∀ c ∈ categories, ¬(c.enabled = true ∧ lowerStr extension ∈ c.extensions)) := by
  induction categories with
  | nil =>
    constructor
    · intro c h; simp [get_category_for_extension] at h
    · intro _ c hc; simp at hc
  | cons a rest ih =>
    by_cases hmatch : (a.enabled && a.matches_extension extension) = true
    · obtain ⟨ha, hm⟩ := (Bool.and_eq_true ..).mp hmatch
      constructor
      · intro c hc
        rw [get_category_for_extension, if_pos hmatch] at hc
        obtain rfl := Option.some.inj hc
        refine ⟨[], rest, rfl, ha, ?_, by simp⟩
        simpa [FileCategory.matches_extension] using hm
      · intro hc
        rw [get_category_for_extension, if_pos hmatch] at hc
        exact absurd hc (by simp)
    · have hnot : ¬(a.enabled = true ∧ lowerStr extension ∈ a.extensions) := by
        intro ⟨h1, h2⟩
        exact hmatch (by simp [h1, FileCategory.matches_extension, h2])
      constructor
      · intro c hc
        rw [get_category_for_extension, if_neg hmatch] at hc
        obtain ⟨l₁, l₂, heq, h1, h2, h3⟩ := ih.1 c hc
        refine ⟨a :: l₁, l₂, by simp [heq], h1, h2, ?_⟩
        intro c' hc'
        rcases List.mem_cons.mp hc' with h | h
        · subst h; exact hnot
        · exact h3 c' h
      · intro hc c hcmem
        rw [get_category_for_extension, if_neg hmatch] at hc
        rcases List.mem_cons.mp hcmem with h | h
        · subst h; exact hnot
        · exact ih.2 hc c h

/-- Two enabled categories both declaring `.log`: classification returns the
earlier-registered one, with the first-match decomposition. -/
theorem get_category_first_match_witness :
    ∃ l₁ l₂,
      [docsCat, mediaCat] = l₁ ++ docsCat :: l₂ ∧
      docsCat.enabled = true ∧
      lowerStr dotLogStr ∈ docsCat.extensions ∧
      ∀ c' ∈ l₁, ¬(c'.enabled = true ∧ lowerStr dotLogStr ∈ c'.extensions) :=
  (get_category_first_match [docsCat, mediaCat] dotLogStr).1 docsCat (by decide)

lemma char_toNat_ofNat_valid (n : Nat) (h : n.isValidChar) : (Char.ofNat n).toNat = n := by
  rw [Char.ofNat, dif_pos h]
  rfl

lemma toLower_toLower (c : Char) : c.toLower.toLower = c.toLower := by
  unfold Char.toLower
  by_cases h : c.toNat ≥ 65 ∧ c.toNat ≤ 90
  · rw [if_pos h]
    have ht : (Char.ofNat (c.toNat + 32)).toNat = c.toNat + 32 :=
      char_toNat_ofNat_valid _ (Or.inl (by omega))
    rw [if_neg (by omega)]
  · rw [if_neg h, if_neg h]

lemma lowerStr_idem (s : Str) : lowerStr (lowerStr s) = lowerStr s := by
  simp only [lowerStr, List.map_map]
  congr 1
  funext c
  exact toLower_toLower c

/-- C8 (case-insensitive matching): a file whose suffix differs from a
declared extension only in letter case matches the category, because the
file extension is lower-cased at scan time (`FileInfo.__init__`) and the
declared extensions are lower-cased at construction
(`FileCategory.__init__`). -/
theorem matches_case_insensitive (nm : Str) (exts : List Str) (folder : Str)
    (p : FsPath) (d : Str) (hd : d ∈ exts)
    (h : lowerStr p.pathSuffix = lowerStr d) :
    (FileCategory.init nm exts folder).matches_extension (FileInfo.ofPath p).extension = true := by
  simp only [FileCategory.matches_extension, FileCategory.init, FileInfo.ofPath,
    decide_eq_true_eq]
  rw [lowerStr_idem, h]
  exact List.mem_map_of_mem lowerStr hd

/-- A file `A.TXT` matches a category declaring `.txt`. -/
theorem matches_case_insensitive_witness :
    dotTxtStr ∈ [dotTxtStr] ∧
    lowerStr (FsPath.pathSuffix ⟨[aTxtStr]⟩) = lowerStr dotTxtStr ∧
    (FileCategory.init documentsStr [dotTxtStr] documentsStr).matches_extension
      (FileInfo.ofPath ⟨[aTxtStr]⟩).extension = true :=
  ⟨by decide, by decide,
    matches_case_insensitive documentsStr [dotTxtStr] documentsStr
      ⟨[aTxtStr]⟩ dotTxtStr (by decide) (by decide)⟩

lemma digitChar_inj {d e : Nat} (hd : d < 10) (he : e < 10)
    (h : Nat.digitChar d = Nat.digitChar e) : d = e := by
  interval_cases d <;> interval_cases e <;> simp_all [Nat.digitChar]

lemma map_digitChar_inj : ∀ {l₁ l₂ : List Nat}, (∀ d ∈ l₁, d < 10) → (∀ d ∈ l₂, d < 10) →
    l₁.map Nat.digitChar = l₂.map Nat.digitChar → l₁ = l₂ := by
  intro l₁
  induction l₁ with
  | nil => intro l₂ _ _ h; cases l₂ <;> simp_all
  | cons a t ih =>
    intro l₂ h1 h2 h
    cases l₂ with
    | nil => simp at h
    | cons b t₂ =>
      simp only [List.map_cons, List.cons.injEq] at h
      have hab := digitChar_inj (h1 a (by simp)) (h2 b (by simp)) h.1
      subst hab
      have := ih (fun d hd => h1 d (by simp [hd])) (fun d hd => h2 d (by simp [hd])) h.2
      simp [this]

lemma natStr_inj : ∀ {n m : Nat}, natStr n = natStr m → n = m := by
  have key : ∀ m : Nat, m ≠ 0 → natStr m = ['0'] → False := by
    intro m hm h
    rw [natStr, if_neg hm] at h
    have h' : (Nat.digits 10 m).map Nat.digitChar = ['0'] := by
      have := List.reverse_inj.mpr h
      simpa using h
    have hd : Nat.digits 10 m = [0] := by
      have h10 : ∀ d ∈ Nat.digits 10 m, d < 10 :=
        fun d hd => Nat.digits_lt_base (by norm_num) hd
      exact map_digitChar_inj h10 (by simp) (by simpa [Nat.digitChar] using h')
    have : m = 0 := by
      have := Nat.ofDigits_digits 10 m
      rw [hd] at this
      simpa [Nat.ofDigits] using this.symm
    exact hm this
  intro n m h
  have h0 : natStr 0 = ['0'] := by simp [natStr]
  by_cases hn : n = 0 <;> by_cases hm : m = 0
  · omega
  · exfalso
    subst hn
    rw [h0] at h
    exact key m hm h.symm
  · exfalso
    subst hm
    rw [h0] at h
    exact key n hn h
  · rw [natStr, if_neg hn, natStr, if_neg hm] at h
    have h' := List.reverse_inj.mp (by simpa using h)
    have hn10 : ∀ d ∈ Nat.digits 10 n, d < 10 :=
      fun d hd => Nat.digits_lt_base (by norm_num) hd
    have hm10 : ∀ d ∈ Nat.digits 10 m, d < 10 :=
      fun d hd => Nat.digits_lt_base (by norm_num) hd
    exact Nat.digits_inj_iff.mp (map_digitChar_inj hn10 hm10 h')

lemma collisionName_inj {stem ext : Str} {n m : Nat}
    (h : collisionName stem ext n = collisionName stem ext m) : n = m := by
  unfold collisionName at h
  have h1 := List.append_cancel_left h
  have h2 : natStr n ++ ext = natStr m ++ ext := by
    simpa using h1
  exact natStr_inj (List.append_cancel_right h2)

lemma child_inj {dir : FsPath} {s t : Str} (h : dir.child s = dir.child t) : s = t := by
  unfold FsPath.child at h
  have := List.append_cancel_left (congrArg FsPath.components h)
  simpa using this

lemma candidate_inj (dir : FsPath) (stem ext : Str) :
    Function.Injective (fun k : Nat => dir.child (collisionName stem ext (1 + k))) := by
  intro a b h
  have := collisionName_inj (child_inj h)
  omega

lemma destLoop_spec {fs : List FsPath} {dir : FsPath} {stem ext : Str} :
    ∀ {fuel : Nat} {dest : FsPath} {counter : Nat} {d : FsPath},
    destLoop fs dir stem ext fuel dest counter = some d →
    d ∉ fs ∧ (dest ∉ fs → d = dest) ∧
    (dest ∈ fs → ∃ n, counter ≤ n ∧ d = dir.child (collisionName stem ext n) ∧
      ∀ m, counter ≤ m → m < n → dir.child (collisionName stem ext m) ∈ fs) := by
  intro fuel
  induction fuel with
  | zero => intro dest counter d h; simp [destLoop] at h
  | succ f ih =>
    intro dest counter d h
    rw [destLoop] at h
    by_cases hdest : dest ∈ fs
    · rw [if_pos hdest] at h
      obtain ⟨h1, h2, h3⟩ := ih h
      refine ⟨h1, fun hc => absurd hdest hc, fun _ => ?_⟩
      by_cases hnext : dir.child (collisionName stem ext counter) ∈ fs
      · obtain ⟨n, hn1, hn2, hn3⟩ := h3 hnext
        refine ⟨n, by omega, hn2, fun m hm1 hm2 => ?_⟩
        rcases Nat.eq_or_lt_of_le hm1 with heq | hlt
        · rw [← heq]; exact hnext
        · exact hn3 m hlt hm2
      · refine ⟨counter, le_refl _, (h2 hnext).symm ▸ h2 hnext, fun m hm1 hm2 => by omega⟩
    · rw [if_neg hdest] at h
      obtain rfl := Option.some.inj h
      exact ⟨hdest, fun _ => rfl, fun hc => absurd hc hdest⟩

lemma destLoop_none_mem {fs : List FsPath} {dir : FsPath} {stem ext : Str}
    {fuel : Nat} {dest : FsPath} {counter : Nat}
    (h : destLoop fs dir stem ext (fuel + 1) dest counter = none) : dest ∈ fs := by
  rw [destLoop] at h
  by_cases hdest : dest ∈ fs
  · exact hdest
  · rw [if_neg hdest] at h; simp at h

lemma destLoop_none_all {fs : List FsPath} {dir : FsPath} {stem ext : Str} :
    ∀ (fuel : Nat) {dest : FsPath} {counter : Nat},
    destLoop fs dir stem ext fuel dest counter = none →
    ∀ k, k + 1 < fuel → dir.child (collisionName stem ext (counter + k)) ∈ fs := by
  intro fuel
  induction fuel with
  | zero => intro dest counter _ k hk; omega
  | succ f ih =>
    intro dest counter h k hk
    have hdest : dest ∈ fs := destLoop_none_mem h
    rw [destLoop, if_pos hdest] at h
    cases k with
    | zero =>
      cases f with
      | zero => omega
      | succ f' => simpa using destLoop_none_mem h
    | succ k' =>
      have := ih h k' (by omega)
      have harith : counter + 1 + k' = counter + (k' + 1) := by omega
      rwa [harith] at this

lemma chooseDest_isSome (fs : List FsPath) (dir : FsPath) (nm stem ext : Str) :
    ∃ d, chooseDest fs dir nm stem ext = some d := by
  cases h : chooseDest fs dir nm stem ext with
  | some d => exact ⟨d, rfl⟩
  | none =>
    exfalso
    unfold chooseDest at h
    have hall : ∀ k ≤ fs.length, dir.child (collisionName stem ext (1 + k)) ∈ fs :=
      fun k hk => destLoop_none_all _ h k (by omega)
    set L := (List.range (fs.length + 1)).map
      (fun k => dir.child (collisionName stem ext (1 + k))) with hL
    have hnodup : L.Nodup := (List.nodup_range _).map (candidate_inj dir stem ext)
    have hsub : L ⊆ fs := by
      intro x hx
      rw [hL] at hx
      obtain ⟨k, hk, rfl⟩ := List.mem_map.mp hx
      exact hall k (by simpa using Nat.lt_succ_iff.mp (List.mem_range.mp hk))
    have hfin : L.toFinset ⊆ fs.toFinset := by
      intro x hx
      rw [List.mem_toFinset] at hx ⊢
      exact hsub hx
    have hcard : fs.length + 1 ≤ fs.length := by
      calc fs.length + 1 = L.length := by simp [hL]
        _ = L.toFinset.card := (List.toFinset_card_of_nodup hnodup).symm
        _ ≤ fs.toFinset.card := Finset.card_le_card hfin
        _ ≤ fs.length := List.toFinset_card_le fs
    omega

/-- C2 (collision-free destination): the destination chosen by the collision
loop always exists, never collides with an existing filesystem entry, is the
original name when that is free, and is otherwise `{stem}_{n}{extension}` for
the smallest free `n ≥ 1` (every earlier candidate is occupied). `move_file`
and `handle_uncategorized_files` both move to exactly this path. -/
theorem chooseDest_collision_free (fs : List FsPath) (dir : FsPath) (nm stem ext : Str) :
    ∃ d, chooseDest fs dir nm stem ext = some d ∧ d ∉ fs ∧
      (dir.child nm ∉ fs → d = dir.child nm) ∧
      (dir.child nm ∈ fs → ∃ n, 1 ≤ n ∧ d = dir.child (collisionName stem ext n) ∧
        ∀ m, 1 ≤ m → m < n → dir.child (collisionName stem ext m) ∈ fs) := by
  obtain ⟨d, hd⟩ := chooseDest_isSome fs dir nm stem ext
  obtain ⟨h1, h2, h3⟩ := destLoop_spec hd
  exact ⟨d, hd, h1, h2, h3⟩

/-- Moving a third `report.pdf` into a folder already holding `report.pdf`
and `report_1.pdf` selects a fresh collision-renamed destination. -/
theorem chooseDest_collision_free_witness :
    ∃ d, chooseDest reportFs destDir reportPdfStr reportStr dotPdfStr = some d ∧
      d ∉ reportFs ∧
      (destDir.child reportPdfStr ∉ reportFs → d = destDir.child reportPdfStr) ∧
      (destDir.child reportPdfStr ∈ reportFs →
        ∃ n, 1 ≤ n ∧ d = destDir.child (collisionName reportStr dotPdfStr n) ∧
          ∀ m, 1 ≤ m → m < n →
            destDir.child (collisionName reportStr dotPdfStr m) ∈ reportFs) :=
  chooseDest_collision_free reportFs destDir reportPdfStr reportStr dotPdfStr

/-- C3 counterexample: the reset loop (lines 100-102) guards on
`category.enabled`, so a DISABLED category's count is NOT reset. In this
run, the registry holds a disabled category with a stale count of 5; the
run reaches Processing (one `.txt` file, moved successfully), yet the
emitted summary still reports the stale `(Media, 5)` entry — so not every
category's count was zeroed before processing, and the summary does not
reflect only files routed during this run. -/
theorem resetCounts_counterexample :
    (runWorker noFailEnv wStale (.ok [(fileA, true)]) noStop [srcDir, fileA]).outcome =
      RunOutcome.completed ⟨1, 1, 0, [(txtStr, 1), (mediaStr, 5)]⟩ := by decide

/-- C3 amended: at the start of a run reaching Processing, the reset loop
(`resetEnabledCounts`, lines 100-102) zeroes every ENABLED category's count
and leaves every disabled category (stale count included) unchanged. -/
theorem resetEnabledCounts_spec (cats : List FileCategory) (i : Nat) :
    (resetEnabledCounts cats).get? i =
      (cats.get? i).map (fun c => if c.enabled then c.reset_count else c) ∧
    (∀ c ∈ resetEnabledCounts cats, c.enabled = true → c.file_count = 0) ∧
    (∀ c ∈ cats, c.enabled = false → c ∈ resetEnabledCounts cats) := by
  refine ⟨by simp [resetEnabledCounts], ?_, ?_⟩
  · intro c hc hen
    obtain ⟨c₀, hc₀, rfl⟩ := List.mem_map.mp hc
    by_cases h : c₀.enabled
    · simp [h, FileCategory.reset_count]
    · have h' : c₀.enabled = false := by simpa using h
      simp [h'] at hen
  · intro c hc hdis
    have : (if c.enabled then c.reset_count else c) = c := by
      simp [hdis]
    exact this ▸ List.mem_map_of_mem _ hc

/-- In the stale registry, the enabled `.txt` category is reset to zero
while the disabled stale category survives with its old count. -/
theorem resetEnabledCounts_spec_witness :
    catTxt.reset_count.file_count = 0 ∧
    staleCat ∈ resetEnabledCounts [catTxt, staleCat] :=
  ⟨(resetEnabledCounts_spec [catTxt, staleCat] 0).2.1 catTxt.reset_count
      (by decide) (by decide),
   (resetEnabledCounts_spec [catTxt, staleCat] 0).2.2 staleCat
      (by decide) (by decide)⟩

lemma get_enabled {cats : List FileCategory} {ext : Str} {c : FileCategory}
    (h : get_category_for_extension cats ext = some c) : c.enabled = true := by
  induction cats with
  | nil => simp [get_category_for_extension] at h
  | cons a rest ih =>
    by_cases hm : (a.enabled && a.matches_extension ext) = true
    · rw [get_category_for_extension, if_pos hm] at h
      obtain rfl := Option.some.inj h
      exact ((Bool.and_eq_true ..).mp hm).1
    · rw [get_category_for_extension, if_neg hm] at h
      exact ih h

lemma catShape_increment (c : FileCategory) : catShape c.increment_count = catShape c := rfl

lemma cond_of_shape {a b : FileCategory} (h : catShape a = catShape b) (ext : Str) :
    (a.enabled && a.matches_extension ext) = (b.enabled && b.matches_extension ext) := by
  have he : a.extensions = b.extensions := congrArg (fun x => x.2.1) h
  have hen : a.enabled = b.enabled := congrArg (fun x => x.2.2.2) h
  rw [FileCategory.matches_extension, FileCategory.matches_extension, he, hen]

lemma get_none_of_shape : ∀ {cats cats' : List FileCategory},
    cats.map catShape = cats'.map catShape → ∀ ext,
    (get_category_for_extension cats ext = none ↔
      get_category_for_extension cats' ext = none) := by
  intro cats
  induction cats with
  | nil =>
    intro cats' h ext
    cases cats' with
    | nil => exact Iff.rfl
    | cons b rest' => simp at h
  | cons a rest ih =>
    intro cats' h ext
    cases cats' with
    | nil => simp at h
    | cons b rest' =>
      simp only [List.map_cons, List.cons.injEq] at h
      have hc := cond_of_shape h.1 ext
      by_cases hm : (a.enabled && a.matches_extension ext) = true
      · rw [get_category_for_extension, if_pos hm,
          get_category_for_extension, if_pos (hc ▸ hm)]
        simp
      · rw [get_category_for_extension, if_neg hm,
          get_category_for_extension, if_neg (fun hb => hm (hc ▸ hb))]
        exact ih h.2 ext

lemma setFirst_shape : ∀ {cats : List FileCategory} {ext : Str} {c c' : FileCategory},
    get_category_for_extension cats ext = some c → catShape c' = catShape c →
    (setFirstEnabledMatch cats ext c').map catShape = cats.map catShape := by
  intro cats
  induction cats with
  | nil => intro ext c c' h _; simp [get_category_for_extension] at h
  | cons a rest ih =>
    intro ext c c' h hshape
    by_cases hm : (a.enabled && a.matches_extension ext) = true
    · rw [get_category_for_extension, if_pos hm] at h
      obtain rfl := Option.some.inj h
      rw [setFirstEnabledMatch, if_pos hm]
      simp [hshape]
    · rw [get_category_for_extension, if_neg hm] at h
      rw [setFirstEnabledMatch, if_neg hm]
      simp only [List.map_cons]
      rw [ih h hshape]

lemma setFirst_self : ∀ {cats : List FileCategory} {ext : Str} {c : FileCategory},
    get_category_for_extension cats ext = some c →
    setFirstEnabledMatch cats ext c = cats := by
  intro cats
  induction cats with
  | nil => intro ext c h; simp [get_category_for_extension] at h
  | cons a rest ih =>
    intro ext c h
    by_cases hm : (a.enabled && a.matches_extension ext) = true
    · rw [get_category_for_extension, if_pos hm] at h
      obtain rfl := Option.some.inj h
      rw [setFirstEnabledMatch, if_pos hm]
    · rw [get_category_for_extension, if_neg hm] at h
      rw [setFirstEnabledMatch, if_neg hm, ih h]

lemma chooseDest_shape {fs : Fs} {dir : FsPath} {nm stem ext : Str} {d : FsPath}
    (h : chooseDest fs dir nm stem ext = some d) : ∃ s, d = dir.child s := by
  unfold chooseDest at h
  obtain ⟨_, h2, h3⟩ := destLoop_spec h
  by_cases hc : dir.child nm ∈ fs
  · obtain ⟨n, _, rfl, _⟩ := h3 hc
    exact ⟨_, rfl⟩
  · exact ⟨nm, h2 hc⟩

lemma mkdirParents_noFail (fs : Fs) (p : FsPath) :
    ∃ fs', mkdirParents noFailEnv fs p = .ok fs' := by
  unfold mkdirParents noFailEnv
  by_cases h : p ∈ fs
  · exact ⟨fs, by rw [if_pos h]⟩
  · refine ⟨p :: p.parentsList ++ fs, ?_⟩
    rw [if_neg h]
    simp

lemma shutilMove_noFail (fs : Fs) (src dst : FsPath) :
    shutilMove noFailEnv fs src dst = .ok (dst :: fs.erase src) := by
  unfold shutilMove noFailEnv
  simp

lemma mkdirParents_err {env : FsEnv} {fs : Fs} {p : FsPath} {e : PyErr}
    (h : mkdirParents env fs p = .error e) : e = .mkdirErr p := by
  unfold mkdirParents at h
  by_cases h1 : p ∈ fs
  · rw [if_pos h1] at h; simp at h
  · rw [if_neg h1] at h
    by_cases h2 : env.mkdirFails p = true
    · rw [if_pos h2] at h
      exact (Except.error.inj h).symm
    · rw [if_neg h2] at h; simp at h

lemma move_file_noFail (dest : FsPath) (fs : Fs) (f : FileInfo) (c : FileCategory) :
    (move_file noFailEnv dest fs f c).ok = true ∧
    (move_file noFailEnv dest fs f c).category = c.increment_count := by
  obtain ⟨fs₁, h₁⟩ := mkdirParents_noFail fs (dest.child c.folder_name)
  obtain ⟨d, hd⟩ := chooseDest_isSome fs₁ (dest.child c.folder_name) f.name
    f.path.stem f.path.pathSuffix
  simp only [move_file, h₁, hd, shutilMove_noFail]
  exact ⟨trivial, trivial⟩

lemma move_file_spec (env : FsEnv) (dest : FsPath) (fs : Fs) (f : FileInfo)
    (c : FileCategory) :
    (∀ s, Event.finished s ∉ (move_file env dest fs f c).events) ∧
    (∀ mv ∈ (move_file env dest fs f c).moves,
      ∃ nm, mv.2 = (dest.child c.folder_name).child nm) ∧
    ((move_file env dest fs f c).ok = true →
      (move_file env dest fs f c).category = c.increment_count) ∧
    ((move_file env dest fs f c).ok = false →
      (move_file env dest fs f c).category = c ∧
      (move_file env dest fs f c).moves = [] ∧
      ∃ e, (move_file env dest fs f c).events = [Event.log (LogMsg.moveError f.name e)]) := by
  simp only [move_file]
  split
  next e heq =>
    exact ⟨by simp, by simp, by simp, fun _ => ⟨rfl, rfl, e, rfl⟩⟩
  next fs₁ heq =>
    split
    next hcd =>
      exact ⟨by simp, by simp, by simp,
        fun _ => ⟨rfl, rfl, .mkdirErr (dest.child c.folder_name), rfl⟩⟩
    next destination hcd =>
      split
      next e hmv =>
        exact ⟨by simp, by simp, by simp, fun _ => ⟨rfl, rfl, e, rfl⟩⟩
      next fs₂ hmv =>
        refine ⟨by simp, ?_, fun _ => rfl, by simp⟩
        intro mv hmv'
        simp only [List.mem_singleton] at hmv'
        subst hmv'
        obtain ⟨s, hs⟩ := chooseDest_shape hcd
        exact ⟨s, hs⟩

lemma scanLoop_spec (stopRead : Nat → Bool) :
    ∀ (entries : List (FsPath × Bool)) (checks : Nat) (acc : List FileInfo),
    ((scanLoop stopRead entries checks acc).2.2 = false →
      (scanLoop stopRead entries checks acc).2.1 = checks + entries.length ∧
      ∀ k, checks ≤ k → k < checks + entries.length → stopRead k = false) := by
  intro entries
  induction entries with
  | nil =>
    intro checks acc _
    constructor
    · simp [scanLoop]
    · intro k h1 h2
      simp only [List.length_nil, Nat.add_zero] at h2
      omega
  | cons entry rest ih =>
    intro checks acc hab
    rw [scanLoop] at hab ⊢
    by_cases hstop : stopRead checks = true
    · rw [if_pos hstop] at hab; simp at hab
    · rw [if_neg hstop] at hab ⊢
      obtain ⟨h1, h2⟩ := ih (checks + 1) _ hab
      refine ⟨by rw [h1, List.length_cons]; omega, fun k hk1 hk2 => ?_⟩
      rw [List.length_cons] at hk2
      rcases Nat.eq_or_lt_of_le hk1 with heq | hlt
      · rw [← heq]
        exact Bool.eq_false_iff.mpr hstop
      · exact h2 k hlt (by omega)

lemma scanLoop_noStop (entries : List (FsPath × Bool)) :
    ∀ (checks : Nat) (acc : List FileInfo),
    (scanLoop noStop entries checks acc).2.2 = false := by
  induction entries with
  | nil => intro checks acc; simp [scanLoop]
  | cons entry rest ih =>
    intro checks acc
    rw [scanLoop]
    simp only [noStop, Bool.false_eq_true, if_false]
    exact ih (checks + 1) _

lemma countOutcome_cons (f : FileInfo) (o o₀ : FileOutcome)
    (l : List (FileInfo × FileOutcome)) :
    countOutcome ((f, o) :: l) o₀ =
      (if o = o₀ then 1 else 0) + countOutcome l o₀ := by
  unfold countOutcome
  by_cases h : o = o₀
  · subst h
    simp [List.filter_cons]
    omega
  · simp [List.filter_cons, h]

lemma processFile_spec (env : FsEnv) (dest : FsPath) (dry : Bool) (st : PState)
    (f : FileInfo) :
    ∃ o Δe Δm,
      (processFile env dest dry st f).outcomes = st.outcomes ++ [(f, o)] ∧
      (processFile env dest dry st f).events = st.events ++ Δe ∧
      (processFile env dest dry st f).moves = st.moves ++ Δm ∧
      (processFile env dest dry st f).cats.map catShape = st.cats.map catShape ∧
      (processFile env dest dry st f).organized =
        st.organized + (if o = FileOutcome.organizedOk then 1 else 0) ∧
      (processFile env dest dry st f).uncategorized =
        st.uncategorized ++ (if o = FileOutcome.uncat then [f] else []) ∧
      (∀ s, Event.finished s ∉ Δe) ∧
      (∀ mv ∈ Δm, ∃ folder nm, mv.2 = (dest.child folder).child nm) ∧
      (o = FileOutcome.skippedDest ↔ dest ∈ f.path.parentsList) ∧
      (o = FileOutcome.uncat ↔ dest ∉ f.path.parentsList ∧
        get_category_for_extension st.cats f.extension = none) ∧
      (dry = true → (processFile env dest dry st f).fs = st.fs ∧ Δm = []) ∧
      (o = FileOutcome.skippedDest → Δm = []) := by
  by_cases hskip : dest ∈ f.path.parentsList
  · refine ⟨.skippedDest, [], [], ?_⟩
    simp only [processFile, if_pos hskip]
    refine ⟨by simp, by simp, by simp, by simp, by simp, by simp, by simp,
      by simp, by simp [hskip], by simp [hskip], by simp, by simp⟩
  · simp only [processFile, if_neg hskip]
    split
    next category heq =>
      have hen := get_enabled heq
      rw [if_pos hen]
      by_cases hdry : dry = true
      · subst hdry
        rw [if_pos rfl]
        refine ⟨.organizedOk, [.log (.dryWouldMove f.name category.folder_name)], [],
          by simp, by simp, by simp,
          setFirst_shape heq (catShape_increment category),
          by simp, by simp, by simp, by simp, by simp [hskip], by simp [heq], by simp,
          by simp⟩
      · have hd : dry = false := by simpa using hdry
        subst hd
        rw [if_neg (by simp)]
        have mspec := move_file_spec env dest st.fs f category
        by_cases hok : (move_file env dest st.fs f category).ok = true
        · refine ⟨.organizedOk, (move_file env dest st.fs f category).events,
            (move_file env dest st.fs f category).moves,
            by rw [hok]; simp, by simp, by simp,
            setFirst_shape heq (by rw [mspec.2.2.1 hok]; exact catShape_increment category),
            by rw [hok]; simp, by simp, mspec.1, ?_, by simp [hskip], by simp [heq],
            by simp, by simp⟩
          intro mv hmv
          obtain ⟨nm, hnm⟩ := mspec.2.1 mv hmv
          exact ⟨category.folder_name, nm, hnm⟩
        · have hokf : (move_file env dest st.fs f category).ok = false := by
            simpa using hok
          obtain ⟨hcat, hmvs, e, hevs⟩ := mspec.2.2.2 hokf
          refine ⟨.moveFailed, (move_file env dest st.fs f category).events,
            (move_file env dest st.fs f category).moves,
            by rw [hokf]; simp, by simp, by simp,
            by rw [hcat, setFirst_self heq],
            by rw [hokf]; simp, by simp, mspec.1, ?_, by simp [hskip], by simp [heq],
            by simp, by simp⟩
          intro mv hmv
          obtain ⟨nm, hnm⟩ := mspec.2.1 mv hmv
          exact ⟨category.folder_name, nm, hnm⟩
    next heq =>
      refine ⟨.uncat, [], [], by simp, by simp, by simp, by simp, by simp, by simp,
        by simp, by simp, by simp [hskip], by simp [hskip, heq], by simp, by simp⟩

lemma processLoop_spec (env : FsEnv) (dest : FsPath) (dry : Bool) (total : Nat)
    (stopRead : Nat → Bool) :
    ∀ (files : List FileInfo) (i checks : Nat) (st : PState),
    ∃ Δo Δe Δm,
      (processLoop env dest dry total stopRead files i checks st).1.outcomes =
        st.outcomes ++ Δo ∧
      (processLoop env dest dry total stopRead files i checks st).1.events =
        st.events ++ Δe ∧
      (processLoop env dest dry total stopRead files i checks st).1.moves =
        st.moves ++ Δm ∧
      (processLoop env dest dry total stopRead files i checks st).1.cats.map catShape =
        st.cats.map catShape ∧
      (processLoop env dest dry total stopRead files i checks st).1.organized =
        st.organized + countOutcome Δo FileOutcome.organizedOk ∧
      (processLoop env dest dry total stopRead files i checks st).1.uncategorized =
        st.uncategorized ++
          (Δo.filter (fun x => x.2 == FileOutcome.uncat)).map (fun x => x.1) ∧
      (∀ s, Event.finished s ∉ Δe) ∧
      (∀ mv ∈ Δm, ∃ folder nm, mv.2 = (dest.child folder).child nm) ∧
      (∀ x ∈ Δo,
        (x.2 = FileOutcome.skippedDest ↔ dest ∈ x.1.path.parentsList) ∧
        (x.2 = FileOutcome.uncat ↔ dest ∉ x.1.path.parentsList ∧
          get_category_for_extension st.cats x.1.extension = none)) ∧
      ((processLoop env dest dry total stopRead files i checks st).2.2 = false →
        Δo.map (fun x => x.1) = files ∧
        (processLoop env dest dry total stopRead files i checks st).2.1 =
          checks + files.length ∧
        ∀ k, checks ≤ k → k < checks + files.length → stopRead k = false) ∧
      (dry = true →
        (processLoop env dest dry total stopRead files i checks st).1.fs = st.fs ∧
        Δm = []) ∧
      ((∀ x ∈ Δo, x.2 = FileOutcome.skippedDest) → Δm = []) := by
  intro files
  induction files with
  | nil =>
    intro i checks st
    refine ⟨[], [], [], by simp [processLoop], by simp [processLoop],
      by simp [processLoop], by simp [processLoop], by simp [processLoop, countOutcome],
      by simp [processLoop], by simp, by simp, by simp, ?_, by simp [processLoop],
      by simp⟩
    intro _
    refine ⟨by simp, by simp [processLoop], ?_⟩
    intro k h1 h2
    simp only [List.length_nil, Nat.add_zero] at h2
    omega
  | cons f rest ih =>
    intro i checks st
    by_cases hstop : stopRead checks = true
    · refine ⟨[], [], [], ?_⟩
      simp only [processLoop, if_pos hstop]
      refine ⟨by simp, by simp, by simp, by simp, by simp [countOutcome],
        by simp, by simp, by simp, by simp, by simp, by simp, by simp⟩
    · obtain ⟨o, Δe₀, Δm₀, h1, h2, h3, h4, h5, h6, h7, h8, h9, h10, h11, h12⟩ :=
        processFile_spec env dest dry
          { st with events := st.events ++
              [.progress (i * 100 / total), .status (.processing f.name)] } f
      obtain ⟨Δo', Δe', Δm', g1, g2, g3, g4, g5, g6, g7, g8, g9, g10, g11, g12⟩ :=
        ih (i + 1) (checks + 1)
          (processFile env dest dry
            { st with events := st.events ++
                [.progress (i * 100 / total), .status (.processing f.name)] } f)
      refine ⟨(f, o) :: Δo',
        [.progress (i * 100 / total), .status (.processing f.name)] ++ Δe₀ ++ Δe',
        Δm₀ ++ Δm', ?_⟩
      simp only [processLoop, if_neg hstop]
      refine ⟨?_, ?_, ?_, ?_, ?_, ?_, ?_, ?_, ?_, ?_, ?_, ?_⟩
      · rw [g1, h1]
        simp
      · rw [g2, h2]
        simp
      · rw [g3, h3]
        simp
      · rw [g4, h4]
      · rw [g5, h5, countOutcome_cons]
        simp [Nat.add_assoc]
      · rw [g6, h6]
        by_cases ho : o = FileOutcome.uncat
        · subst ho
          simp [List.filter_cons]
        · simp [List.filter_cons, ho]
      · intro s hs
        rcases List.mem_append.mp hs with h | h
        · rcases List.mem_append.mp h with h' | h'
          · simp at h'
          · exact h7 s h'
        · exact g7 s h
      · intro mv hmv
        rcases List.mem_append.mp hmv with h | h
        · exact h8 mv h
        · exact g8 mv h
      · intro x hx
        rcases List.mem_cons.mp hx with h | h
        · subst h
          exact ⟨h9, h10⟩
        · refine ⟨(g9 x h).1, ?_⟩
          rw [(g9 x h).2]
          rw [get_none_of_shape h4 x.1.extension]
      · intro hab
        obtain ⟨k1, k2, k3⟩ := g10 hab
        refine ⟨by rw [List.map_cons, k1], by rw [k2, List.length_cons]; omega, ?_⟩
        intro k hk1 hk2
        rw [List.length_cons] at hk2
        rcases Nat.eq_or_lt_of_le hk1 with heq | hlt
        · rw [← heq]
          exact Bool.eq_false_iff.mpr hstop
        · exact k3 k hlt (by omega)
      · intro hdry
        obtain ⟨f1, f2⟩ := g11 hdry
        obtain ⟨e1, e2⟩ := h11 hdry
        refine ⟨by rw [f1, e1], by rw [f2, e2]; simp⟩
      · intro hall
        have ho : o = FileOutcome.skippedDest := hall (f, o) (by simp)
        rw [h12 ho, g12 (fun x hx => hall x (by simp [hx]))]
        simp

lemma handleUncatLoop_spec (env : FsEnv) (upath : FsPath) :
    ∀ (files : List FileInfo) (fs : Fs) (evs : List Event) (mvs : List (FsPath × FsPath)),
    ∃ Δe Δm,
      (handleUncatLoop env upath files fs evs mvs).2.1 = evs ++ Δe ∧
      (handleUncatLoop env upath files fs evs mvs).2.2 = mvs ++ Δm ∧
      (∀ s, Event.finished s ∉ Δe) ∧
      (∀ mv ∈ Δm, ∃ nm, mv.2 = upath.child nm) ∧
      (∀ mv ∈ Δm, ∃ f ∈ files, mv.1 = f.path) := by
  intro files
  induction files with
  | nil =>
    intro fs evs mvs
    exact ⟨[], [], by simp [handleUncatLoop], by simp [handleUncatLoop], by simp,
      by simp, by simp⟩
  | cons f rest ih =>
    intro fs evs mvs
    cases hcd : chooseDest fs upath f.name f.path.stem f.path.pathSuffix with
    | none =>
      obtain ⟨Δe, Δm, k1, k2, k3, k4, k5⟩ :=
        ih fs (evs ++ [.log (.uncatMoveError f.name (.mkdirErr upath))]) mvs
      refine ⟨.log (.uncatMoveError f.name (.mkdirErr upath)) :: Δe, Δm,
        by simp only [handleUncatLoop, hcd]; rw [k1]; simp,
        by simp only [handleUncatLoop, hcd]; rw [k2], ?_, k4, ?_⟩
      · intro s hs
        rcases List.mem_cons.mp hs with h | h
        · simp at h
        · exact k3 s h
      · intro mv hmv
        obtain ⟨f', hf', hp⟩ := k5 mv hmv
        exact ⟨f', by simp [hf'], hp⟩
    | some destination =>
      cases hmv : shutilMove env fs f.path destination with
      | error e =>
        obtain ⟨Δe, Δm, k1, k2, k3, k4, k5⟩ :=
          ih fs (evs ++ [.log (.uncatMoveError f.name e)]) mvs
        refine ⟨.log (.uncatMoveError f.name e) :: Δe, Δm,
          by simp only [handleUncatLoop, hcd, hmv]; rw [k1]; simp,
          by simp only [handleUncatLoop, hcd, hmv]; rw [k2], ?_, k4, ?_⟩
        · intro s hs
          rcases List.mem_cons.mp hs with h | h
          · simp at h
          · exact k3 s h
        · intro mv hmv'
          obtain ⟨f', hf', hp⟩ := k5 mv hmv'
          exact ⟨f', by simp [hf'], hp⟩
      | ok fs' =>
        obtain ⟨Δe, Δm, k1, k2, k3, k4, k5⟩ :=
          ih fs' (evs ++ [.log (.movedUncategorized f.name)])
            (mvs ++ [(f.path, destination)])
        refine ⟨.log (.movedUncategorized f.name) :: Δe, (f.path, destination) :: Δm,
          by simp only [handleUncatLoop, hcd, hmv]; rw [k1]; simp,
          by simp only [handleUncatLoop, hcd, hmv]; rw [k2]; simp, ?_, ?_, ?_⟩
        · intro s hs
          rcases List.mem_cons.mp hs with h | h
          · simp at h
          · exact k3 s h
        · intro mv hmv'
          rcases List.mem_cons.mp hmv' with h | h
          · subst h
            obtain ⟨nm, hnm⟩ := chooseDest_shape hcd
            exact ⟨nm, hnm⟩
          · exact k4 mv h
        · intro mv hmv'
          rcases List.mem_cons.mp hmv' with h | h
          · subst h
            exact ⟨f, by simp, rfl⟩
          · obtain ⟨f', hf', hp⟩ := k5 mv h
            exact ⟨f', by simp [hf'], hp⟩

lemma handleUncat_err {env : FsEnv} {dest : FsPath} {files : List FileInfo} {fs : Fs}
    {e : PyErr} (h : handle_uncategorized_files env dest files fs = .error e) :
    e = .mkdirErr (dest.child uncategorizedStr) := by
  unfold handle_uncategorized_files at h
  by_cases hf : files = []
  · rw [if_pos hf] at h; simp at h
  · rw [if_neg hf] at h
    cases hmk : mkdirParents env fs (dest.child uncategorizedStr) with
    | error e' =>
      rw [hmk] at h
      simp only [Except.error.injEq] at h
      rw [← h]
      exact mkdirParents_err hmk
    | ok fs₁ =>
      rw [hmk] at h
      simp at h

lemma handleUncat_ok {env : FsEnv} {dest : FsPath} {files : List FileInfo} {fs : Fs}
    {fs' : Fs} {evs : List Event} {mvs : List (FsPath × FsPath)}
    (h : handle_uncategorized_files env dest files fs = .ok (fs', evs, mvs)) :
    (∀ s, Event.finished s ∉ evs) ∧
    (∀ mv ∈ mvs, ∃ nm, mv.2 = (dest.child uncategorizedStr).child nm) ∧
    (∀ mv ∈ mvs, ∃ f ∈ files, mv.1 = f.path) := by
  unfold handle_uncategorized_files at h
  by_cases hf : files = []
  · rw [if_pos hf] at h
    have hinj := Except.ok.inj h
    have hevs : evs = [] := (congrArg (fun x => x.2.1) hinj).symm
    have hmvs : mvs = [] := (congrArg (fun x => x.2.2) hinj).symm
    subst hevs
    subst hmvs
    exact ⟨by simp, by simp, by simp⟩
  · rw [if_neg hf] at h
    cases hmk : mkdirParents env fs (dest.child uncategorizedStr) with
    | error e' =>
      rw [hmk] at h
      simp at h
    | ok fs₁ =>
      rw [hmk] at h
      simp only [Except.ok.injEq] at h
      obtain ⟨Δe, Δm, k1, k2, k3, k4, k5⟩ :=
        handleUncatLoop_spec env (dest.child uncategorizedStr) files fs₁ [] []
      have hevs : evs = Δe := by
        have := congrArg (fun x => x.2.1) h
        simp only at this
        rw [← this, k1]
        simp
      have hmvs : mvs = Δm := by
        have := congrArg (fun x => x.2.2) h
        simp only at this
        rw [← this, k2]
        simp
      subst hevs
      subst hmvs
      exact ⟨k3, k4, k5⟩

lemma organize_cases (env : FsEnv) (w : Worker)
    (rglob : Except Unit (List (FsPath × Bool))) (stopRead : Nat → Bool) (fs₀ : Fs) :
    (∃ u, rglob = .error u ∧
      organize_files env w rglob stopRead fs₀ =
        ⟨startEvents w ++ [.error .scanFailed], fs₀, w.categories, [], [], [], 0,
          .scanFailed⟩) ∨
    (∃ entries files checks₁, rglob = .ok entries ∧
      scanLoop stopRead entries 0 [] = (files, checks₁, true) ∧
      organize_files env w rglob stopRead fs₀ =
        ⟨startEvents w, fs₀, w.categories, [], [], files, checks₁, .stopped⟩) ∨
    (∃ entries checks₁, rglob = .ok entries ∧
      scanLoop stopRead entries 0 [] = ([], checks₁, false) ∧
      organize_files env w rglob stopRead fs₀ =
        ⟨startEvents w ++ [.log .noFiles, .finished zeroSummary], fs₀,
          w.categories, [], [], [], checks₁, .completed zeroSummary⟩) ∨
    (∃ entries files checks₁ e, rglob = .ok entries ∧
      scanLoop stopRead entries 0 [] = (files, checks₁, false) ∧ files ≠ [] ∧
      w.dry_run = false ∧ mkdirParents env fs₀ w.dest_dir = .error e ∧
      organize_files env w rglob stopRead fs₀ =
        ⟨startEvents w ++ [.log (.foundFiles files.length)], fs₀, w.categories,
          [], [], files, checks₁, .raised e⟩) ∨
    (∃ entries files checks₁ fs₁ st checks₂, rglob = .ok entries ∧
      scanLoop stopRead entries 0 [] = (files, checks₁, false) ∧ files ≠ [] ∧
      (if w.dry_run then .ok fs₀ else mkdirParents env fs₀ w.dest_dir :
        Except PyErr Fs) = .ok fs₁ ∧
      processLoop env w.dest_dir w.dry_run files.length stopRead files 0 checks₁
        ⟨fs₁, resetEnabledCounts w.categories, 0, [],
          startEvents w ++ [.log (.foundFiles files.length)], [], []⟩ =
        (st, checks₂, true) ∧
      organize_files env w rglob stopRead fs₀ =
        ⟨st.events, st.fs, st.cats, st.moves, st.outcomes, files, checks₂,
          .stopped⟩) ∨
    (∃ entries files checks₁ fs₁ st checks₂ e, rglob = .ok entries ∧
      scanLoop stopRead entries 0 [] = (files, checks₁, false) ∧ files ≠ [] ∧
      (if w.dry_run then .ok fs₀ else mkdirParents env fs₀ w.dest_dir :
        Except PyErr Fs) = .ok fs₁ ∧
      processLoop env w.dest_dir w.dry_run files.length stopRead files 0 checks₁
        ⟨fs₁, resetEnabledCounts w.categories, 0, [],
          startEvents w ++ [.log (.foundFiles files.length)], [], []⟩ =
        (st, checks₂, false) ∧
      w.dry_run = false ∧
      handle_uncategorized_files env w.dest_dir st.uncategorized st.fs = .error e ∧
      organize_files env w rglob stopRead fs₀ =
        ⟨st.events, st.fs, st.cats, st.moves, st.outcomes, files, checks₂,
          .raised e⟩) ∨
    (∃ entries files checks₁ fs₁ st checks₂ fs₂ evsU mvsU, rglob = .ok entries ∧
      scanLoop stopRead entries 0 [] = (files, checks₁, false) ∧ files ≠ [] ∧
      (if w.dry_run then .ok fs₀ else mkdirParents env fs₀ w.dest_dir :
        Except PyErr Fs) = .ok fs₁ ∧
      processLoop env w.dest_dir w.dry_run files.length stopRead files 0 checks₁
        ⟨fs₁, resetEnabledCounts w.categories, 0, [],
          startEvents w ++ [.log (.foundFiles files.length)], [], []⟩ =
        (st, checks₂, false) ∧
      (if w.dry_run then .ok (st.fs, [], []) else
        handle_uncategorized_files env w.dest_dir st.uncategorized st.fs :
        Except PyErr (Fs × List Event × List (FsPath × FsPath))) =
        .ok (fs₂, evsU, mvsU) ∧
      organize_files env w rglob stopRead fs₀ =
        ⟨st.events ++ evsU ++
            [.progress 100, .status .complete, .log (.complete st.organized),
             .finished ⟨files.length, st.organized, st.uncategorized.length,
               summaryCategories st.cats⟩],
          fs₂, st.cats, st.moves ++ mvsU, st.outcomes, files, checks₂,
          .completed ⟨files.length, st.organized, st.uncategorized.length,
            summaryCategories st.cats⟩⟩) := by
  cases rglob with
  | error u =>
    exact Or.inl ⟨u, rfl, by simp [organize_files]⟩
  | ok entries =>
    rcases hscan : scanLoop stopRead entries 0 [] with ⟨files, checks₁, aborted₁⟩
    cases aborted₁ with
    | true =>
      refine Or.inr (Or.inl ⟨entries, files, checks₁, rfl, hscan, ?_⟩)
      simp [organize_files, hscan]
    | false =>
      by_cases hemp : files = []
      · subst hemp
        refine Or.inr (Or.inr (Or.inl ⟨entries, checks₁, rfl, hscan, ?_⟩))
        simp [organize_files, hscan]
      · cases hmk : (if w.dry_run then .ok fs₀ else mkdirParents env fs₀ w.dest_dir :
            Except PyErr Fs) with
        | error e =>
          have hdry : w.dry_run = false := by
            by_cases hd : w.dry_run = true
            · rw [if_pos hd] at hmk; simp at hmk
            · simpa using hd
          refine Or.inr (Or.inr (Or.inr (Or.inl
            ⟨entries, files, checks₁, e, rfl, hscan, hemp, hdry, ?_, ?_⟩)))
          · rw [hdry] at hmk
            simpa using hmk
          · simp [organize_files, hscan, hemp, hmk]
        | ok fs₁ =>
          rcases hloop : processLoop env w.dest_dir w.dry_run files.length stopRead
              files 0 checks₁
              ⟨fs₁, resetEnabledCounts w.categories, 0, [],
                startEvents w ++ [.log (.foundFiles files.length)], [], []⟩ with
            ⟨st, checks₂, aborted₂⟩
          cases aborted₂ with
          | true =>
            refine Or.inr (Or.inr (Or.inr (Or.inr (Or.inl
              ⟨entries, files, checks₁, fs₁, st, checks₂, rfl, hscan, hemp, rfl,
                hloop, ?_⟩))))
            simp [organize_files, hscan, hemp, hmk, hloop]
          | false =>
            cases hun : (if w.dry_run then .ok (st.fs, [], []) else
                handle_uncategorized_files env w.dest_dir st.uncategorized st.fs :
                Except PyErr (Fs × List Event × List (FsPath × FsPath))) with
            | error e =>
              have hdry : w.dry_run = false := by
                by_cases hd : w.dry_run = true
                · rw [if_pos hd] at hun; simp at hun
                · simpa using hd
              refine Or.inr (Or.inr (Or.inr (Or.inr (Or.inr (Or.inl
                ⟨entries, files, checks₁, fs₁, st, checks₂, e, rfl, hscan, hemp,
                  rfl, hloop, hdry, ?_, ?_⟩)))))
              · rw [hdry] at hun
                simpa using hun
              · simp [organize_files, hscan, hemp, hmk, hloop, hun]
            | ok triple =>
              rcases triple with ⟨fs₂, evsU, mvsU⟩
              refine Or.inr (Or.inr (Or.inr (Or.inr (Or.inr (Or.inr
                ⟨entries, files, checks₁, fs₁, st, checks₂, fs₂, evsU, mvsU, rfl,
                  hscan, hemp, rfl, hloop, hun, ?_⟩)))))
              simp [organize_files, hscan, hemp, hmk, hloop, hun]

lemma startEvents_noFin (w : Worker) (s : Summary) :
    Event.finished s ∉ startEvents w := by
  simp [startEvents]

lemma finished_last {E : List Event} {x : Event} (hE : ∀ s, Event.finished s ∉ E) :
    ∀ (pre : List Event) (s : Summary) (post : List Event),
    E ++ [x] = pre ++ Event.finished s :: post → post = [] := by
  induction E with
  | nil =>
    intro pre s post h
    cases pre with
    | nil =>
      simp only [List.nil_append] at h
      exact (List.cons.inj h).2.symm
    | cons a pre' =>
      simp only [List.nil_append, List.cons_append] at h
      obtain ⟨-, h2⟩ := List.cons.inj h
      exact absurd h2.symm (by simp)
  | cons y E' ih =>
    intro pre s post h
    cases pre with
    | nil =>
      simp only [List.cons_append, List.nil_append] at h
      obtain ⟨h1, -⟩ := List.cons.inj h
      exact absurd (h1 ▸ List.mem_cons_self y E') (h1 ▸ hE s)
    | cons a pre' =>
      simp only [List.cons_append] at h
      obtain ⟨-, h2⟩ := List.cons.inj h
      exact ih (fun s' hs' => hE s' (List.mem_cons_of_mem y hs')) pre' s post h2

lemma mem_parentsList_append (p : FsPath) (l : List Str) (hl : l ≠ []) :
    p ∈ FsPath.parentsList ⟨p.components ++ l⟩ := by
  unfold FsPath.parentsList
  refine List.mem_map.mpr ⟨p.components.length, ?_, ?_⟩
  · refine List.mem_range.mpr ?_
    rw [List.length_append]
    cases l with
    | nil => exact absurd rfl hl
    | cons a t => simp
  · rw [List.take_left]

lemma dest_mem_parents_child_child (dest : FsPath) (folder nm : Str) :
    dest ∈ ((dest.child folder).child nm).parentsList := by
  have h : (dest.child folder).child nm = ⟨dest.components ++ [folder, nm]⟩ := by
    simp [FsPath.child]
  rw [h]
  exact mem_parentsList_append dest [folder, nm] (by simp)

lemma runWorker_spec (env : FsEnv) (w : Worker)
    (rglob : Except Unit (List (FsPath × Bool))) (stopRead : Nat → Bool) (fs₀ : Fs) :
    (runWorker env w rglob stopRead fs₀).outcome =
      (organize_files env w rglob stopRead fs₀).outcome ∧
    (runWorker env w rglob stopRead fs₀).moves =
      (organize_files env w rglob stopRead fs₀).moves ∧
    (runWorker env w rglob stopRead fs₀).outcomes =
      (organize_files env w rglob stopRead fs₀).outcomes ∧
    (runWorker env w rglob stopRead fs₀).scanned =
      (organize_files env w rglob stopRead fs₀).scanned ∧
    (runWorker env w rglob stopRead fs₀).checksUsed =
      (organize_files env w rglob stopRead fs₀).checksUsed ∧
    (runWorker env w rglob stopRead fs₀).fs =
      (organize_files env w rglob stopRead fs₀).fs ∧
    (runWorker env w rglob stopRead fs₀).cats =
      (organize_files env w rglob stopRead fs₀).cats ∧
    (∃ Δ, (runWorker env w rglob stopRead fs₀).events =
        (organize_files env w rglob stopRead fs₀).events ++ Δ ∧
      ∀ s, Event.finished s ∉ Δ) ∧
    (∀ s, (organize_files env w rglob stopRead fs₀).outcome = .completed s →
      (runWorker env w rglob stopRead fs₀).events =
        (organize_files env w rglob stopRead fs₀).events) := by
  simp only [runWorker]
  cases ho : (organize_files env w rglob stopRead fs₀).outcome with
  | completed s =>
    exact ⟨ho, rfl, rfl, rfl, rfl, rfl, rfl, ⟨[], by simp, by simp⟩, fun _ _ => by simp⟩
  | stopped =>
    exact ⟨ho, rfl, rfl, rfl, rfl, rfl, rfl, ⟨[], by simp, by simp⟩,
      fun s h => absurd h (by simp)⟩
  | scanFailed =>
    exact ⟨ho, rfl, rfl, rfl, rfl, rfl, rfl, ⟨[], by simp, by simp⟩,
      fun s h => absurd h (by simp)⟩
  | raised e =>
    exact ⟨rfl, rfl, rfl, rfl, rfl, rfl, rfl,
      ⟨[.error (.uncaught e)], rfl, by simp⟩, fun s h => absurd h (by simp)⟩

lemma organize_events_shape (env : FsEnv) (w : Worker)
    (rglob : Except Unit (List (FsPath × Bool))) (stopRead : Nat → Bool) (fs₀ : Fs) :
    (∃ s E, (organize_files env w rglob stopRead fs₀).outcome = .completed s ∧
      (organize_files env w rglob stopRead fs₀).events = E ++ [Event.finished s] ∧
      (∀ s', Event.finished s' ∉ E) ∧
      (∀ k, k < (organize_files env w rglob stopRead fs₀).checksUsed →
        stopRead k = false)) ∨
    (∀ s, Event.finished s ∉ (organize_files env w rglob stopRead fs₀).events) := by
  rcases organize_cases env w rglob stopRead fs₀ with
    ⟨u, hrg, horg⟩ |
    ⟨entries, files, checks₁, hrg, hscan, horg⟩ |
    ⟨entries, checks₁, hrg, hscan, horg⟩ |
    ⟨entries, files, checks₁, e, hrg, hscan, hemp, hdry, hmk, horg⟩ |
    ⟨entries, files, checks₁, fs₁, st, checks₂, hrg, hscan, hemp, hmk, hloop, horg⟩ |
    ⟨entries, files, checks₁, fs₁, st, checks₂, e, hrg, hscan, hemp, hmk, hloop,
      hdry, hun, horg⟩ |
    ⟨entries, files, checks₁, fs₁, st, checks₂, fs₂, evsU, mvsU, hrg, hscan, hemp,
      hmk, hloop, hun, horg⟩
  · right
    rw [horg]
    intro s
    simp [startEvents]
  · right
    rw [horg]
    intro s
    simp [startEvents]
  · left
    refine ⟨zeroSummary, startEvents w ++ [.log .noFiles], ?_, ?_, ?_, ?_⟩
    · rw [horg]
    · rw [horg]
      simp
    · intro s'
      simp [startEvents]
    · intro k hk
      rw [horg] at hk
      simp only at hk
      have hs := scanLoop_spec stopRead entries 0 []
      rw [hscan] at hs
      obtain ⟨h1, h2⟩ := hs rfl
      simp only at h1
      exact h2 k (by omega) (by omega)
  · right
    rw [horg]
    intro s
    simp [startEvents]
  · right
    rw [horg]
    intro s
    obtain ⟨Δo, Δe, Δm, k1, k2, k3, k4, k5, k6, k7, k8, k9, k10, k11⟩ :=
      processLoop_spec env w.dest_dir w.dry_run files.length stopRead files 0 checks₁
        ⟨fs₁, resetEnabledCounts w.categories, 0, [],
          startEvents w ++ [.log (.foundFiles files.length)], [], []⟩
    rw [hloop] at k2
    simp only at k2
    rw [k2]
    intro hmem
    rcases List.mem_append.mp hmem with h | h
    · rcases List.mem_append.mp h with h' | h'
      · exact startEvents_noFin w s h'
      · simp at h'
    · exact k7 s h
  · right
    rw [horg]
    intro s
    obtain ⟨Δo, Δe, Δm, k1, k2, k3, k4, k5, k6, k7, k8, k9, k10, k11⟩ :=
      processLoop_spec env w.dest_dir w.dry_run files.length stopRead files 0 checks₁
        ⟨fs₁, resetEnabledCounts w.categories, 0, [],
          startEvents w ++ [.log (.foundFiles files.length)], [], []⟩
    rw [hloop] at k2
    simp only at k2
    rw [k2]
    intro hmem
    rcases List.mem_append.mp hmem with h | h
    · rcases List.mem_append.mp h with h' | h'
      · exact startEvents_noFin w s h'
      · simp at h'
    · exact k7 s h
  · left
    obtain ⟨Δo, Δe, Δm, k1, k2, k3, k4, k5, k6, k7, k8, k9, k10, k11⟩ :=
      processLoop_spec env w.dest_dir w.dry_run files.length stopRead files 0 checks₁
        ⟨fs₁, resetEnabledCounts w.categories, 0, [],
          startEvents w ++ [.log (.foundFiles files.length)], [], []⟩
    rw [hloop] at k2 k10
    simp only at k2 k10
    have hUev : ∀ s, Event.finished s ∉ evsU := by
      by_cases hd : w.dry_run = true
      · rw [if_pos hd] at hun
        have := Except.ok.inj hun
        have hev : evsU = [] := (congrArg (fun x => x.2.1) this).symm
        rw [hev]
        simp
      · rw [if_neg hd] at hun
        exact (handleUncat_ok hun).1
    refine ⟨⟨files.length, st.organized, st.uncategorized.length,
        summaryCategories st.cats⟩,
      st.events ++ evsU ++ [.progress 100, .status .complete,
        .log (.complete st.organized)], ?_, ?_, ?_, ?_⟩
    · rw [horg]
    · rw [horg]
      simp
    · intro s' hs'
      rcases List.mem_append.mp hs' with h | h
      · rcases List.mem_append.mp h with h' | h'
        · rw [k2] at h'
          rcases List.mem_append.mp h' with h'' | h''
          · rcases List.mem_append.mp h'' with h3 | h3
            · exact startEvents_noFin w s' h3
            · simp at h3
          · exact k7 s' h''
        · exact hUev s' h'
      · simp at h
    · intro k hk
      rw [horg] at hk
      simp only at hk
      obtain ⟨m1, m2, m3⟩ := k10 trivial
      have hs := scanLoop_spec stopRead entries 0 []
      rw [hscan] at hs
      obtain ⟨h1, h2⟩ := hs rfl
      simp only at h1
      by_cases hkk : k < checks₁
      · exact h2 k (by omega) (by omega)
      · exact m3 k (by omega) (by omega)

/-- C6 (no summary after cancellation): in every execution that observes the
stop flag at a loop boundary (a stop-flag read during the run returned
`true`), the run emits no `finished` (summary) event; and in every execution
whatsoever, nothing follows a `finished` event — a summary, when emitted, is
the final event of the run. -/
theorem aborted_run_no_summary (env : FsEnv) (w : Worker)
    (rglob : Except Unit (List (FsPath × Bool))) (stopRead : Nat → Bool) (fs₀ : Fs) :
    ((∃ k, k < (runWorker env w rglob stopRead fs₀).checksUsed ∧ stopRead k = true) →
      ∀ s, Event.finished s ∉ (runWorker env w rglob stopRead fs₀).events) ∧
    (∀ pre s post,
      (runWorker env w rglob stopRead fs₀).events = pre ++ Event.finished s :: post →
      post = []) := by
  obtain ⟨r1, r2, r3, r4, r5, r6, r7, ⟨Δ, rev, rΔ⟩, rcomp⟩ :=
    runWorker_spec env w rglob stopRead fs₀
  rcases organize_events_shape env w rglob stopRead fs₀ with
    ⟨s₀, E, ho, hev, hE, hreads⟩ | hnofin
  · constructor
    · intro ⟨k, hk, hkt⟩ s
      rw [r5] at hk
      exact absurd hkt (by rw [hreads k hk]; simp)
    · intro pre s post h
      rw [rcomp s₀ ho, hev] at h
      exact finished_last hE pre s post h
  · constructor
    · intro _ s hmem
      rw [rev] at hmem
      rcases List.mem_append.mp hmem with h | h
      · exact hnofin s h
      · exact rΔ s h
    · intro pre s post h
      exfalso
      have hmem : Event.finished s ∈ (runWorker env w rglob stopRead fs₀).events := by
        rw [h]
        simp
      rw [rev] at hmem
      rcases List.mem_append.mp hmem with h' | h'
      · exact hnofin s h'
      · exact rΔ s h'

/-- A run whose stop flag is set from the very first check emits no summary:
with one candidate entry and `stopRead` constantly true, the scan observes
the stop at check 0 and the run ends without a `finished` event. -/
theorem aborted_run_no_summary_witness :
    Event.finished zeroSummary ∉
      (runWorker noFailEnv wReal (.ok [(fileA, true)]) (fun _ => true) []).events :=
  (aborted_run_no_summary noFailEnv wReal (.ok [(fileA, true)]) (fun _ => true) []).1
    ⟨0, by decide, rfl⟩ zeroSummary

/-- C7 counterexample: "only a scan failure aborts the whole run" is false.
Here the scan succeeds and the single file is merely uncategorized, yet the
run aborts — with an error event and no summary — because the `mkdir` of the
`Uncategorized` folder (line 182, outside the per-file `try`) raises, and
the exception propagates out of `organize_files` to `run`'s catch-all. -/
theorem only_scan_failure_aborts_counterexample :
    (runWorker envUncatFail wReal (.ok [(fileB, true)]) noStop [srcDir, fileB]).outcome =
      RunOutcome.raised (PyErr.mkdirErr (destDir.child uncategorizedStr)) ∧
    (runWorker envUncatFail wReal
        (.ok [(fileB, true)]) noStop [srcDir, fileB]).events.all
      (fun e => !(isFinishedEvent e)) = true := by decide

/-- C7 amended: a per-file move failure is logged, leaves the category's
counter untouched, performs no move, and does not stop the run (a completed
run has processed every scanned file, failures included); the whole run is
aborted only by a scan failure or by an uncaught exception, and the only
uncaught exceptions are a failure to create the destination root (line 98)
or the `Uncategorized` folder (line 182) — both outside the per-file error
handling. -/
theorem per_file_failure_isolated (env : FsEnv) (w : Worker)
    (rglob : Except Unit (List (FsPath × Bool))) (stopRead : Nat → Bool) (fs₀ : Fs)
    (dest : FsPath) (fs : Fs) (f : FileInfo) (c : FileCategory) :
    ((move_file env dest fs f c).ok = false →
      (move_file env dest fs f c).category = c ∧
      (move_file env dest fs f c).moves = [] ∧
      ∃ e, (move_file env dest fs f c).events = [Event.log (LogMsg.moveError f.name e)]) ∧
    (∀ s, (runWorker env w rglob stopRead fs₀).outcome = .completed s →
      ((runWorker env w rglob stopRead fs₀).outcomes).map (fun x => x.1) =
        (runWorker env w rglob stopRead fs₀).scanned) ∧
    (∀ e, (runWorker env w rglob stopRead fs₀).outcome = .raised e →
      e = .mkdirErr w.dest_dir ∨ e = .mkdirErr (w.dest_dir.child uncategorizedStr)) := by
  obtain ⟨r1, r2, r3, r4, r5, r6, r7, -, -⟩ := runWorker_spec env w rglob stopRead fs₀
  refine ⟨(move_file_spec env dest fs f c).2.2.2, ?_, ?_⟩
  · intro s hs
    rw [r1] at hs
    rw [r3, r4]
    rcases organize_cases env w rglob stopRead fs₀ with
      ⟨u, hrg, horg⟩ |
      ⟨entries, files, checks₁, hrg, hscan, horg⟩ |
      ⟨entries, checks₁, hrg, hscan, horg⟩ |
      ⟨entries, files, checks₁, e, hrg, hscan, hemp, hdry, hmk, horg⟩ |
      ⟨entries, files, checks₁, fs₁, st, checks₂, hrg, hscan, hemp, hmk, hloop, horg⟩ |
      ⟨entries, files, checks₁, fs₁, st, checks₂, e, hrg, hscan, hemp, hmk, hloop,
        hdry, hun, horg⟩ |
      ⟨entries, files, checks₁, fs₁, st, checks₂, fs₂, evsU, mvsU, hrg, hscan, hemp,
        hmk, hloop, hun, horg⟩
    · rw [horg] at hs; simp at hs
    · rw [horg] at hs; simp at hs
    · rw [horg]
      simp
    · rw [horg] at hs; simp at hs
    · rw [horg] at hs; simp at hs
    · rw [horg] at hs; simp at hs
    · obtain ⟨Δo, Δe, Δm, k1, k2, k3, k4, k5, k6, k7, k8, k9, k10, k11⟩ :=
        processLoop_spec env w.dest_dir w.dry_run files.length stopRead files 0 checks₁
          ⟨fs₁, resetEnabledCounts w.categories, 0, [],
            startEvents w ++ [.log (.foundFiles files.length)], [], []⟩
      rw [hloop] at k1 k10
      simp only at k1 k10
      obtain ⟨m1, -, -⟩ := k10 trivial
      rw [horg]
      simp only
      rw [k1]
      simpa using m1
  · intro e he
    rw [r1] at he
    rcases organize_cases env w rglob stopRead fs₀ with
      ⟨u, hrg, horg⟩ |
      ⟨entries, files, checks₁, hrg, hscan, horg⟩ |
      ⟨entries, checks₁, hrg, hscan, horg⟩ |
      ⟨entries, files, checks₁, e', hrg, hscan, hemp, hdry, hmk, horg⟩ |
      ⟨entries, files, checks₁, fs₁, st, checks₂, hrg, hscan, hemp, hmk, hloop, horg⟩ |
      ⟨entries, files, checks₁, fs₁, st, checks₂, e', hrg, hscan, hemp, hmk, hloop,
        hdry, hun, horg⟩ |
      ⟨entries, files, checks₁, fs₁, st, checks₂, fs₂, evsU, mvsU, hrg, hscan, hemp,
        hmk, hloop, hun, horg⟩
    · rw [horg] at he; simp at he
    · rw [horg] at he; simp at he
    · rw [horg] at he; simp at he
    · rw [horg] at he
      simp only [RunOutcome.raised.injEq] at he
      subst he
      exact Or.inl (mkdirParents_err hmk)
    · rw [horg] at he; simp at he
    · rw [horg] at he
      simp only [RunOutcome.raised.injEq] at he
      subst he
      exact Or.inr (handleUncat_err hun)
    · rw [horg] at he; simp at he

/-- A failing move of `a.txt` is logged, does not increment the category and
records no move. -/
theorem per_file_failure_isolated_witness :
    (move_file envMoveFail destDir [] (FileInfo.ofPath fileA) catTxt).category = catTxt ∧
    (move_file envMoveFail destDir [] (FileInfo.ofPath fileA) catTxt).moves = [] ∧
    ∃ e, (move_file envMoveFail destDir [] (FileInfo.ofPath fileA) catTxt).events =
      [Event.log (LogMsg.moveError (FileInfo.ofPath fileA).name e)] :=
  (per_file_failure_isolated envMoveFail wReal (.ok []) noStop [] destDir []
    (FileInfo.ofPath fileA) catTxt).1 (by decide)

lemma countOutcome_total (outs : List (FileInfo × FileOutcome)) :
    outs.length = countOutcome outs .skippedDest + countOutcome outs .organizedOk +
      countOutcome outs .moveFailed + countOutcome outs .uncat := by
  induction outs with
  | nil => simp [countOutcome]
  | cons x rest ih =>
    obtain ⟨f, o⟩ := x
    rw [List.length_cons, countOutcome_cons, countOutcome_cons, countOutcome_cons,
      countOutcome_cons, ih]
    cases o <;> simp <;> omega

lemma countOutcome_pos {outs : List (FileInfo × FileOutcome)}
    {x : FileInfo × FileOutcome} (hx : x ∈ outs) {o : FileOutcome} (ho : x.2 = o) :
    0 < countOutcome outs o := by
  unfold countOutcome
  have hmem : x ∈ outs.filter (fun y => y.2 == o) :=
    List.mem_filter.mpr ⟨hx, by simp [ho]⟩
  exact List.length_pos_of_mem hmem

lemma countOutcome_filter_corr :
    ∀ (outs : List (FileInfo × FileOutcome)) (P : FileInfo → Bool),
    (∀ x ∈ outs, x.2 = FileOutcome.uncat ↔ P x.1 = true) →
    countOutcome outs .uncat = ((outs.map (fun x => x.1)).filter P).length := by
  intro outs
  induction outs with
  | nil => intro P _; simp [countOutcome]
  | cons x rest ih =>
    intro P h
    obtain ⟨f, o⟩ := x
    rw [countOutcome_cons, List.map_cons, List.filter_cons]
    have hx := h (f, o) (by simp)
    have hrest := ih P (fun y hy => h y (by simp [hy]))
    by_cases ho : o = FileOutcome.uncat
    · have hP : P f = true := hx.mp ho
      rw [if_pos ho, if_pos hP, hrest]
      simp only [List.length_cons]
      omega
    · have hP : ¬(P f = true) := fun hpf => ho (hx.mpr hpf)
      rw [if_neg ho, if_neg hP, hrest]
      omega

lemma resetEnabled_shape (cats : List FileCategory) :
    (resetEnabledCounts cats).map catShape = cats.map catShape := by
  unfold resetEnabledCounts
  rw [List.map_map]
  refine List.map_congr_left ?_
  intro c _
  by_cases h : c.enabled <;> simp [h, Function.comp, catShape, FileCategory.reset_count]

/-- C9 (failed and skipped files counted nowhere): in every emitted summary,
organized + uncategorized + (#skipped + #failed-move files) = total_files,
hence organized + uncategorized ≤ total_files, strictly when some file was
skipped (under the destination root) or had its matched move fail; and a
file whose matched move failed is not in the uncategorized set handed to
`handle_uncategorized_files`, so it is never relocated to `Uncategorized`. -/
theorem failed_move_excluded (env : FsEnv) (w : Worker)
    (rglob : Except Unit (List (FsPath × Bool))) (stopRead : Nat → Bool) (fs₀ : Fs) :
    ∀ s, (runWorker env w rglob stopRead fs₀).outcome = .completed s →
      (s.organized + s.uncategorized +
        (countOutcome (runWorker env w rglob stopRead fs₀).outcomes .skippedDest +
         countOutcome (runWorker env w rglob stopRead fs₀).outcomes .moveFailed) =
        s.total_files) ∧
      s.organized + s.uncategorized ≤ s.total_files ∧
      ((∃ x ∈ (runWorker env w rglob stopRead fs₀).outcomes,
          x.2 = FileOutcome.moveFailed ∨ x.2 = FileOutcome.skippedDest) →
        s.organized + s.uncategorized < s.total_files) ∧
      ((runWorker env w rglob stopRead fs₀).scanned.Nodup →
        ∀ f, (f, FileOutcome.moveFailed) ∈ (runWorker env w rglob stopRead fs₀).outcomes →
          f ∉ ((runWorker env w rglob stopRead fs₀).outcomes.filter
            (fun y => y.2 == FileOutcome.uncat)).map (fun y => y.1)) := by
  intro s hs
  obtain ⟨r1, r2, r3, r4, r5, r6, r7, -, -⟩ := runWorker_spec env w rglob stopRead fs₀
  rw [r1] at hs
  rw [r3, r4]
  rcases organize_cases env w rglob stopRead fs₀ with
    ⟨u, hrg, horg⟩ |
    ⟨entries, files, checks₁, hrg, hscan, horg⟩ |
    ⟨entries, checks₁, hrg, hscan, horg⟩ |
    ⟨entries, files, checks₁, e, hrg, hscan, hemp, hdry, hmk, horg⟩ |
    ⟨entries, files, checks₁, fs₁, st, checks₂, hrg, hscan, hemp, hmk, hloop, horg⟩ |
    ⟨entries, files, checks₁, fs₁, st, checks₂, e, hrg, hscan, hemp, hmk, hloop,
      hdry, hun, horg⟩ |
    ⟨entries, files, checks₁, fs₁, st, checks₂, fs₂, evsU, mvsU, hrg, hscan, hemp,
      hmk, hloop, hun, horg⟩
  · rw [horg] at hs; simp at hs
  · rw [horg] at hs; simp at hs
  · rw [horg] at hs
    simp only [RunOutcome.completed.injEq] at hs
    subst hs
    rw [horg]
    refine ⟨by simp [zeroSummary, countOutcome], by simp [zeroSummary], ?_, ?_⟩
    · rintro ⟨x, hx, -⟩
      simp at hx
    · intro _ f hf
      simp at hf
  · rw [horg] at hs; simp at hs
  · rw [horg] at hs; simp at hs
  · rw [horg] at hs; simp at hs
  · obtain ⟨Δo, Δe, Δm, k1, k2, k3, k4, k5, k6, k7, k8, k9, k10, k11⟩ :=
      processLoop_spec env w.dest_dir w.dry_run files.length stopRead files 0 checks₁
        ⟨fs₁, resetEnabledCounts w.categories, 0, [],
          startEvents w ++ [.log (.foundFiles files.length)], [], []⟩
    rw [hloop] at k1 k5 k6 k10
    simp only at k1 k5 k6 k10
    obtain ⟨m1, -, -⟩ := k10 trivial
    rw [horg] at hs
    simp only [RunOutcome.completed.injEq] at hs
    subst hs
    rw [horg]
    simp only [List.nil_append] at k1 k5 k6
    have hlen : files.length = Δo.length := by
      rw [← m1, List.length_map]
    have hunc : st.uncategorized.length = countOutcome Δo .uncat := by
      rw [k6, List.length_map]
      rfl
    have htot := countOutcome_total Δo
    refine ⟨?_, ?_, ?_, ?_⟩
    · simp only [k1]
      rw [k5, hunc, hlen]
      omega
    · simp only
      rw [k5, hunc, hlen]
      omega
    · simp only [k1]
      intro ⟨x, hx, hor⟩
      rw [k5, hunc, hlen]
      rcases hor with h | h
      · have := countOutcome_pos hx h
        omega
      · have := countOutcome_pos hx h
        omega
    · simp only [k1]
      intro hnodup f hf hmem
      rw [← m1] at hnodup
      obtain ⟨y, hy, hyf⟩ := List.mem_map.mp hmem
      have hyo := List.mem_filter.mp hy
      have heq := List.inj_on_of_nodup_map hnodup hf hyo.1 (by rw [hyf])
      have : FileOutcome.moveFailed = FileOutcome.uncat := by
        have h2 := congrArg (fun z => z.2) heq
        simp only at h2
        rw [h2]
        simpa using hyo.2
      simp at this

/-- A run in which the only file's matched move fails reports organized 0
and uncategorized 0 out of 1 scanned file: strict inequality. -/
theorem failed_move_excluded_witness :
    (Summary.mk 1 0 0 []).organized + (Summary.mk 1 0 0 []).uncategorized <
      (Summary.mk 1 0 0 []).total_files :=
  (failed_move_excluded envMoveFail wReal (.ok [(fileA, true)]) noStop [srcDir, fileA]
    ⟨1, 0, 0, []⟩ (by decide)).2.2.1
    ⟨(FileInfo.ofPath fileA, .moveFailed), by decide, Or.inl rfl⟩

/-- C10 (exact uncategorized count): in every completed run's summary, the
uncategorized count equals exactly the number of scanned, non-skipped files
matching no enabled category of the registry — whatever the environment, so
independent of whether the relocations into `Uncategorized` succeed. -/
theorem uncategorized_count_exact (env : FsEnv) (w : Worker)
    (rglob : Except Unit (List (FsPath × Bool))) (stopRead : Nat → Bool) (fs₀ : Fs) :
    ∀ s, (runWorker env w rglob stopRead fs₀).outcome = .completed s →
      s.uncategorized =
        ((runWorker env w rglob stopRead fs₀).scanned.filter
          (isUncatFile w.dest_dir w.categories)).length := by
  intro s hs
  obtain ⟨r1, r2, r3, r4, r5, r6, r7, -, -⟩ := runWorker_spec env w rglob stopRead fs₀
  rw [r1] at hs
  rw [r4]
  rcases organize_cases env w rglob stopRead fs₀ with
    ⟨u, hrg, horg⟩ |
    ⟨entries, files, checks₁, hrg, hscan, horg⟩ |
    ⟨entries, checks₁, hrg, hscan, horg⟩ |
    ⟨entries, files, checks₁, e, hrg, hscan, hemp, hdry, hmk, horg⟩ |
    ⟨entries, files, checks₁, fs₁, st, checks₂, hrg, hscan, hemp, hmk, hloop, horg⟩ |
    ⟨entries, files, checks₁, fs₁, st, checks₂, e, hrg, hscan, hemp, hmk, hloop,
      hdry, hun, horg⟩ |
    ⟨entries, files, checks₁, fs₁, st, checks₂, fs₂, evsU, mvsU, hrg, hscan, hemp,
      hmk, hloop, hun, horg⟩
  · rw [horg] at hs; simp at hs
  · rw [horg] at hs; simp at hs
  · rw [horg] at hs
    simp only [RunOutcome.completed.injEq] at hs
    subst hs
    rw [horg]
    simp [zeroSummary]
  · rw [horg] at hs; simp at hs
  · rw [horg] at hs; simp at hs
  · rw [horg] at hs; simp at hs
  · obtain ⟨Δo, Δe, Δm, k1, k2, k3, k4, k5, k6, k7, k8, k9, k10, k11⟩ :=
      processLoop_spec env w.dest_dir w.dry_run files.length stopRead files 0 checks₁
        ⟨fs₁, resetEnabledCounts w.categories, 0, [],
          startEvents w ++ [.log (.foundFiles files.length)], [], []⟩
    rw [hloop] at k6 k10
    simp only at k6 k10
    obtain ⟨m1, -, -⟩ := k10 trivial
    rw [horg] at hs
    simp only [RunOutcome.completed.injEq] at hs
    subst hs
    rw [horg]
    simp only [List.nil_append] at k6
    have hunc : st.uncategorized.length = countOutcome Δo .uncat := by
      rw [k6, List.length_map]
      rfl
    have hcorr : ∀ x ∈ Δo, x.2 = FileOutcome.uncat ↔
        isUncatFile w.dest_dir w.categories x.1 = true := by
      intro x hx
      rw [(k9 x hx).2]
      unfold isUncatFile
      rw [Bool.and_eq_true, decide_eq_true_eq, Option.isNone_iff_eq_none]
      constructor
      · intro ⟨h1, h2⟩
        exact ⟨h1, (get_none_of_shape (resetEnabled_shape w.categories) x.1.extension).mp h2⟩
      · intro ⟨h1, h2⟩
        exact ⟨h1, (get_none_of_shape (resetEnabled_shape w.categories) x.1.extension).mpr h2⟩
    simp only
    rw [hunc, countOutcome_filter_corr Δo _ hcorr, m1]

/-- A completed run with one unmatched file reports exactly one
uncategorized file, matching the classification of its scan snapshot. -/
theorem uncategorized_count_exact_witness :
    (Summary.mk 1 0 1 []).uncategorized =
      ((runWorker noFailEnv wReal (.ok [(fileB, true)]) noStop
          [srcDir, fileB]).scanned.filter
        (isUncatFile wReal.dest_dir wReal.categories)).length :=
  uncategorized_count_exact noFailEnv wReal (.ok [(fileB, true)]) noStop
    [srcDir, fileB] ⟨1, 0, 1, []⟩ (by decide)

/-- C5 (a second run is idempotent on relocated files): every move the
engine performs targets a path lying under the destination root, so a file
relocated by a first run is skipped by the destination-root check in any
later run that scans it; and a run all of whose scanned files lie under the
destination root completes with organized = 0, uncategorized = 0 and
performs no move at all. -/
theorem second_run_idempotent (env : FsEnv) (w : Worker)
    (rglob : Except Unit (List (FsPath × Bool))) (stopRead : Nat → Bool) (fs₀ : Fs) :
    (∀ mv ∈ (runWorker env w rglob stopRead fs₀).moves,
      w.dest_dir ∈ mv.2.parentsList) ∧
    ((∀ f ∈ (runWorker env w rglob stopRead fs₀).scanned,
        w.dest_dir ∈ f.path.parentsList) →
      ∀ s, (runWorker env w rglob stopRead fs₀).outcome = .completed s →
        s.organized = 0 ∧ s.uncategorized = 0 ∧
        (runWorker env w rglob stopRead fs₀).moves = []) := by
  obtain ⟨r1, r2, r3, r4, r5, r6, r7, -, -⟩ := runWorker_spec env w rglob stopRead fs₀
  rw [r1, r2, r4]
  rcases organize_cases env w rglob stopRead fs₀ with
    ⟨u, hrg, horg⟩ |
    ⟨entries, files, checks₁, hrg, hscan, horg⟩ |
    ⟨entries, checks₁, hrg, hscan, horg⟩ |
    ⟨entries, files, checks₁, e, hrg, hscan, hemp, hdry, hmk, horg⟩ |
    ⟨entries, files, checks₁, fs₁, st, checks₂, hrg, hscan, hemp, hmk, hloop, horg⟩ |
    ⟨entries, files, checks₁, fs₁, st, checks₂, e, hrg, hscan, hemp, hmk, hloop,
      hdry, hun, horg⟩ |
    ⟨entries, files, checks₁, fs₁, st, checks₂, fs₂, evsU, mvsU, hrg, hscan, hemp,
      hmk, hloop, hun, horg⟩
  · rw [horg]
    exact ⟨by simp, fun _ s hs => by simp at hs⟩
  · rw [horg]
    exact ⟨by simp, fun _ s hs => by simp at hs⟩
  · rw [horg]
    refine ⟨by simp, fun _ s hs => ?_⟩
    simp only [RunOutcome.completed.injEq] at hs
    subst hs
    exact ⟨rfl, rfl, rfl⟩
  · rw [horg]
    exact ⟨by simp, fun _ s hs => by simp at hs⟩
  · obtain ⟨Δo, Δe, Δm, k1, k2, k3, k4, k5, k6, k7, k8, k9, k10, k11, k12⟩ :=
      processLoop_spec env w.dest_dir w.dry_run files.length stopRead files 0 checks₁
        ⟨fs₁, resetEnabledCounts w.categories, 0, [],
          startEvents w ++ [.log (.foundFiles files.length)], [], []⟩
    rw [hloop] at k3
    simp only at k3
    rw [horg]
    refine ⟨?_, fun _ s hs => by simp at hs⟩
    intro mv hmv
    simp only at hmv
    rw [k3] at hmv
    simp only [List.nil_append] at hmv
    obtain ⟨folder, nm, hnm⟩ := k8 mv hmv
    rw [hnm]
    exact dest_mem_parents_child_child w.dest_dir folder nm
  · obtain ⟨Δo, Δe, Δm, k1, k2, k3, k4, k5, k6, k7, k8, k9, k10, k11, k12⟩ :=
      processLoop_spec env w.dest_dir w.dry_run files.length stopRead files 0 checks₁
        ⟨fs₁, resetEnabledCounts w.categories, 0, [],
          startEvents w ++ [.log (.foundFiles files.length)], [], []⟩
    rw [hloop] at k3
    simp only at k3
    rw [horg]
    refine ⟨?_, fun _ s hs => by simp at hs⟩
    intro mv hmv
    simp only at hmv
    rw [k3] at hmv
    simp only [List.nil_append] at hmv
    obtain ⟨folder, nm, hnm⟩ := k8 mv hmv
    rw [hnm]
    exact dest_mem_parents_child_child w.dest_dir folder nm
  · obtain ⟨Δo, Δe, Δm, k1, k2, k3, k4, k5, k6, k7, k8, k9, k10, k11, k12⟩ :=
      processLoop_spec env w.dest_dir w.dry_run files.length stopRead files 0 checks₁
        ⟨fs₁, resetEnabledCounts w.categories, 0, [],
          startEvents w ++ [.log (.foundFiles files.length)], [], []⟩
    rw [hloop] at k1 k3 k5 k6 k10
    simp only at k1 k3 k5 k6 k10
    obtain ⟨m1, -, -⟩ := k10 trivial
    simp only [List.nil_append] at k1 k3 k5 k6
    have hmvsU : ∀ mv ∈ mvsU, ∃ nm, mv.2 = (w.dest_dir.child uncategorizedStr).child nm := by
      by_cases hd : w.dry_run = true
      · rw [if_pos hd] at hun
        have hm : mvsU = [] := (congrArg (fun x => x.2.2) (Except.ok.inj hun)).symm
        rw [hm]
        simp
      · rw [if_neg hd] at hun
        exact (handleUncat_ok hun).2.1
    constructor
    · rw [horg]
      intro mv hmv
      simp only at hmv
      rw [k3] at hmv
      rcases List.mem_append.mp hmv with h | h
      · obtain ⟨folder, nm, hnm⟩ := k8 mv h
        rw [hnm]
        exact dest_mem_parents_child_child w.dest_dir folder nm
      · obtain ⟨nm, hnm⟩ := hmvsU mv h
        rw [hnm]
        exact dest_mem_parents_child_child w.dest_dir uncategorizedStr nm
    · intro hall s hs
      rw [horg] at hall hs
      simp only [RunOutcome.completed.injEq] at hs
      subst hs
      simp only at hall
      have hskipall : ∀ x ∈ Δo, x.2 = FileOutcome.skippedDest := by
        intro x hx
        refine ((k9 x hx).1).mpr ?_
        refine hall x.1 ?_
        rw [← m1]
        exact List.mem_map_of_mem _ hx
      have hΔm : Δm = [] := k12 hskipall
      have horg0 : countOutcome Δo FileOutcome.organizedOk = 0 := by
        unfold countOutcome
        rw [List.filter_eq_nil_iff.mpr, List.length_nil]
        intro x hx
        rw [hskipall x hx]
        simp
      have huncat0 : (Δo.filter (fun x => x.2 == FileOutcome.uncat)) = [] := by
        rw [List.filter_eq_nil_iff.mpr]
        intro x hx
        rw [hskipall x hx]
        simp
      have hunc : st.uncategorized = [] := by
        rw [k6, huncat0]
        simp
      have hmvsU0 : mvsU = [] := by
        by_cases hd : w.dry_run = true
        · rw [if_pos hd] at hun
          exact (congrArg (fun x => x.2.2) (Except.ok.inj hun)).symm
        · rw [if_neg hd] at hun
          unfold handle_uncategorized_files at hun
          rw [if_pos hunc] at hun
          exact (congrArg (fun x => x.2.2) (Except.ok.inj hun)).symm
      refine ⟨?_, ?_, ?_⟩
      · simp only
        rw [k5, horg0]
      · simp only
        rw [hunc]
        rfl
      · rw [horg]
        simp only
        rw [k3, hΔm, hmvsU0]
        simp

/-- A second-run scenario: the only scanned file lies under the destination
root, so the run completes with zero organized, zero uncategorized and no
moves. -/
theorem second_run_idempotent_witness :
    (Summary.mk 1 0 0 []).organized = 0 ∧ (Summary.mk 1 0 0 []).uncategorized = 0 ∧
    (runWorker noFailEnv wReal
      (.ok [((destDir.child txtFolderStr).child ("a.txt".data), true)]) noStop
      [srcDir, destDir, (destDir.child txtFolderStr).child ("a.txt".data)]).moves = [] :=
  (second_run_idempotent noFailEnv wReal
    (.ok [((destDir.child txtFolderStr).child ("a.txt".data), true)]) noStop
    [srcDir, destDir, (destDir.child txtFolderStr).child ("a.txt".data)]).2
    (by decide) ⟨1, 0, 0, []⟩ (by decide)

lemma processLoop_noStop (env : FsEnv) (dest : FsPath) (dry : Bool) (total : Nat) :
    ∀ (files : List FileInfo) (i checks : Nat) (st : PState),
    (processLoop env dest dry total noStop files i checks st).2.2 = false := by
  intro files
  induction files with
  | nil => intro i checks st; simp [processLoop]
  | cons f rest ih =>
    intro i checks st
    rw [processLoop, if_neg (by simp [noStop])]
    exact ih (i + 1) (checks + 1) _

lemma handleUncat_noFail (dest : FsPath) (files : List FileInfo) (fs : Fs) :
    ∃ out, handle_uncategorized_files noFailEnv dest files fs = .ok out := by
  unfold handle_uncategorized_files
  by_cases hf : files = []
  · exact ⟨(fs, [], []), by rw [if_pos hf]⟩
  · rw [if_neg hf]
    obtain ⟨fs₁, h₁⟩ := mkdirParents_noFail fs (dest.child uncategorizedStr)
    rw [h₁]
    exact ⟨_, rfl⟩

lemma processFile_dry_real (dest : FsPath) (stD stR : PState) (f : FileInfo)
    (h1 : stD.cats = stR.cats) (h2 : stD.organized = stR.organized)
    (h3 : stD.uncategorized = stR.uncategorized) :
    (processFile noFailEnv dest true stD f).cats =
      (processFile noFailEnv dest false stR f).cats ∧
    (processFile noFailEnv dest true stD f).organized =
      (processFile noFailEnv dest false stR f).organized ∧
    (processFile noFailEnv dest true stD f).uncategorized =
      (processFile noFailEnv dest false stR f).uncategorized := by
  by_cases hskip : dest ∈ f.path.parentsList
  · simp only [processFile, if_pos hskip]
    exact ⟨h1, h2, h3⟩
  · simp only [processFile, if_neg hskip, h1, h2, h3]
    rcases hget : get_category_for_extension stR.cats f.extension with _ | c
    · simp [hget]
    · simp only [hget]
      have hen := get_enabled hget
      obtain ⟨hok, hcat⟩ := move_file_noFail dest stR.fs f c
      simp [hen, hok, hcat]

lemma dry_real_loop (dest : FsPath) (total : Nat) :
    ∀ (files : List FileInfo) (i cD cR : Nat) (stD stR : PState),
    stD.cats = stR.cats → stD.organized = stR.organized →
    stD.uncategorized = stR.uncategorized →
    (processLoop noFailEnv dest true total noStop files i cD stD).1.cats =
      (processLoop noFailEnv dest false total noStop files i cR stR).1.cats ∧
    (processLoop noFailEnv dest true total noStop files i cD stD).1.organized =
      (processLoop noFailEnv dest false total noStop files i cR stR).1.organized ∧
    (processLoop noFailEnv dest true total noStop files i cD stD).1.uncategorized =
      (processLoop noFailEnv dest false total noStop files i cR stR).1.uncategorized := by
  intro files
  induction files with
  | nil =>
    intro i cD cR stD stR h1 h2 h3
    simp only [processLoop]
    exact ⟨h1, h2, h3⟩
  | cons f rest ih =>
    intro i cD cR stD stR h1 h2 h3
    have hnD : ¬(noStop cD = true) := by simp [noStop]
    have hnR : ¬(noStop cR = true) := by simp [noStop]
    simp only [processLoop]
    rw [if_neg hnD, if_neg hnR]
    have key := processFile_dry_real dest
      { stD with events := stD.events ++
          [Event.progress (i * 100 / total), Event.status (StatusMsg.processing f.name)] }
      { stR with events := stR.events ++
          [Event.progress (i * 100 / total), Event.status (StatusMsg.processing f.name)] }
      f h1 h2 h3
    exact ih (i + 1) (cD + 1) (cR + 1) _ _ key.1 key.2.1 key.2.2

/-- C4 (dry-run equivalence): on the same scan snapshot and registry, a dry
run and a real run in which every filesystem operation succeeds complete
with the SAME summary (total, organized, uncategorized, and per-category
counts), and the dry run mutates nothing: its final filesystem equals the
initial one and it performs no moves. -/
theorem dry_run_equivalence (src dest : FsPath) (cats : List FileCategory)
    (entries : List (FsPath × Bool)) (fs₀ : Fs) :
    ∃ s,
      (runWorker noFailEnv ⟨src, dest, cats, true⟩ (.ok entries) noStop fs₀).outcome =
        .completed s ∧
      (runWorker noFailEnv ⟨src, dest, cats, false⟩ (.ok entries) noStop fs₀).outcome =
        .completed s ∧
      (runWorker noFailEnv ⟨src, dest, cats, true⟩ (.ok entries) noStop fs₀).fs = fs₀ ∧
      (runWorker noFailEnv ⟨src, dest, cats, true⟩ (.ok entries) noStop fs₀).moves = [] := by
  obtain ⟨d1, d2, -, -, -, d6, -, -, -⟩ :=
    runWorker_spec noFailEnv ⟨src, dest, cats, true⟩ (.ok entries) noStop fs₀
  obtain ⟨e1, -, -, -, -, -, -, -, -⟩ :=
    runWorker_spec noFailEnv ⟨src, dest, cats, false⟩ (.ok entries) noStop fs₀
  rcases organize_cases noFailEnv ⟨src, dest, cats, true⟩ (.ok entries) noStop fs₀ with
    ⟨u, hrg, -⟩ |
    ⟨entriesD, filesD, checksD, hrg, hscanD, -⟩ |
    ⟨entriesD, checksD, hrg, hscanD, horgD⟩ |
    ⟨entriesD, filesD, checksD, eD, hrg, hscanD, hempD, hdryD, -, -⟩ |
    ⟨entriesD, filesD, checksD, fs₁D, stD, checksD₂, hrg, hscanD, hempD, hmkD,
      hloopD, -⟩ |
    ⟨entriesD, filesD, checksD, fs₁D, stD, checksD₂, eD, hrg, hscanD, hempD, hmkD,
      hloopD, hdryD, -, -⟩ |
    ⟨entriesD, filesD, checksD, fs₁D, stD, checksD₂, fs₂D, evsUD, mvsUD, hrg,
      hscanD, hempD, hmkD, hloopD, hunD, horgD⟩
  · simp at hrg
  · obtain rfl : entries = entriesD := by simpa using hrg
    have := scanLoop_noStop entries 0 []
    rw [hscanD] at this
    simp at this
  · -- dry run found no files
    obtain rfl : entries = entriesD := by simpa using hrg
    rcases organize_cases noFailEnv ⟨src, dest, cats, false⟩ (.ok entries) noStop fs₀ with
      ⟨u, hrg', -⟩ |
      ⟨entriesR, filesR, checksR, hrg', hscanR, -⟩ |
      ⟨entriesR, checksR, hrg', hscanR, horgR⟩ |
      ⟨entriesR, filesR, checksR, eR, hrg', hscanR, hempR, hdryR, hmkR, -⟩ |
      ⟨entriesR, filesR, checksR, fs₁R, stR, checksR₂, hrg', hscanR, hempR, hmkR,
        hloopR, -⟩ |
      ⟨entriesR, filesR, checksR, fs₁R, stR, checksR₂, eR, hrg', hscanR, hempR,
        hmkR, hloopR, hdryR, hunR, -⟩ |
      ⟨entriesR, filesR, checksR, fs₁R, stR, checksR₂, fs₂R, evsUR, mvsUR, hrg',
        hscanR, hempR, hmkR, hloopR, hunR, horgR⟩
    · simp at hrg'
    · obtain rfl : entries = entriesR := by simpa using hrg'
      have := scanLoop_noStop entries 0 []
      rw [hscanR] at this
      simp at this
    · refine ⟨zeroSummary, ?_, ?_, ?_, ?_⟩
      · rw [d1, horgD]
      · rw [e1, horgR]
      · rw [d6, horgD]
      · rw [d2, horgD]
    · obtain rfl : entries = entriesR := by simpa using hrg'
      rw [hscanD] at hscanR
      obtain ⟨rfl, -⟩ : filesR = [] ∧ checksR = checksD := by
        have h1 := congrArg (fun x => x.1) hscanR
        have h2 := congrArg (fun x => x.2.1) hscanR
        simp only at h1 h2
        exact ⟨h1.symm, h2.symm⟩
      exact absurd rfl hempR
    · obtain rfl : entries = entriesR := by simpa using hrg'
      rw [hscanD] at hscanR
      obtain rfl : filesR = [] := by
        have h1 := congrArg (fun x => x.1) hscanR
        simp only at h1
        exact h1.symm
      exact absurd rfl hempR
    · obtain rfl : entries = entriesR := by simpa using hrg'
      rw [hscanD] at hscanR
      obtain rfl : filesR = [] := by
        have h1 := congrArg (fun x => x.1) hscanR
        simp only at h1
        exact h1.symm
      exact absurd rfl hempR
    · obtain rfl : entries = entriesR := by simpa using hrg'
      rw [hscanD] at hscanR
      obtain rfl : filesR = [] := by
        have h1 := congrArg (fun x => x.1) hscanR
        simp only at h1
        exact h1.symm
      exact absurd rfl hempR
  · simp at hdryD
  · have := processLoop_noStop noFailEnv (Worker.mk src dest cats true).dest_dir
      (Worker.mk src dest cats true).dry_run filesD.length filesD 0 checksD
      ⟨fs₁D, resetEnabledCounts (Worker.mk src dest cats true).categories, 0, [],
        startEvents ⟨src, dest, cats, true⟩ ++ [.log (.foundFiles filesD.length)], [], []⟩
    rw [hloopD] at this
    simp at this
  · simp at hdryD
  · -- dry run processed files
    obtain rfl : entries = entriesD := by simpa using hrg
    rcases organize_cases noFailEnv ⟨src, dest, cats, false⟩ (.ok entries) noStop fs₀ with
      ⟨u, hrg', -⟩ |
      ⟨entriesR, filesR, checksR, hrg', hscanR, -⟩ |
      ⟨entriesR, checksR, hrg', hscanR, horgR⟩ |
      ⟨entriesR, filesR, checksR, eR, hrg', hscanR, hempR, hdryR, hmkR, -⟩ |
      ⟨entriesR, filesR, checksR, fs₁R, stR, checksR₂, hrg', hscanR, hempR, hmkR,
        hloopR, -⟩ |
      ⟨entriesR, filesR, checksR, fs₁R, stR, checksR₂, eR, hrg', hscanR, hempR,
        hmkR, hloopR, hdryR, hunR, -⟩ |
      ⟨entriesR, filesR, checksR, fs₁R, stR, checksR₂, fs₂R, evsUR, mvsUR, hrg',
        hscanR, hempR, hmkR, hloopR, hunR, horgR⟩
    · simp at hrg'
    · obtain rfl : entries = entriesR := by simpa using hrg'
      have := scanLoop_noStop entries 0 []
      rw [hscanR] at this
      simp at this
    · obtain rfl : entries = entriesR := by simpa using hrg'
      rw [hscanR] at hscanD
      obtain rfl : filesD = [] := by
        have h1 := congrArg (fun x => x.1) hscanD
        simp only at h1
        exact h1.symm
      exact absurd rfl hempD
    · obtain rfl : entries = entriesR := by simpa using hrg'
      obtain ⟨fsR', hfsR⟩ := mkdirParents_noFail fs₀ (Worker.mk src dest cats false).dest_dir
      rw [hmkR] at hfsR
      simp at hfsR
    · obtain rfl : entries = entriesR := by simpa using hrg'
      have := processLoop_noStop noFailEnv (Worker.mk src dest cats false).dest_dir
        (Worker.mk src dest cats false).dry_run filesR.length filesR 0 checksR
        ⟨fs₁R, resetEnabledCounts (Worker.mk src dest cats false).categories, 0, [],
          startEvents ⟨src, dest, cats, false⟩ ++ [.log (.foundFiles filesR.length)], [], []⟩
      rw [hloopR] at this
      simp at this
    · obtain rfl : entries = entriesR := by simpa using hrg'
      obtain ⟨outR, houtR⟩ := handleUncat_noFail
        (Worker.mk src dest cats false).dest_dir stR.uncategorized stR.fs
      rw [hunR] at houtR
      simp at houtR
    · -- both runs processed files: relate the two loops
      obtain rfl : entries = entriesR := by simpa using hrg'
      rw [hscanD] at hscanR
      obtain ⟨rfl, rfl⟩ : filesD = filesR ∧ checksD = checksR := by
        have h1 := congrArg (fun x => x.1) hscanR
        have h2 := congrArg (fun x => x.2.1) hscanR
        simp only at h1 h2
        exact ⟨h1, h2⟩
      have hfsD : fs₀ = fs₁D := by
        simp only at hmkD
        simpa using hmkD
      subst hfsD
      simp only at hloopD hloopR
      have hdl := dry_real_loop dest filesD.length filesD 0 checksD checksD
        ⟨fs₀, resetEnabledCounts cats, 0, [],
          startEvents ⟨src, dest, cats, true⟩ ++ [.log (.foundFiles filesD.length)],
          [], []⟩
        ⟨fs₁R, resetEnabledCounts cats, 0, [],
          startEvents ⟨src, dest, cats, false⟩ ++ [.log (.foundFiles filesD.length)],
          [], []⟩ rfl rfl rfl
      rw [hloopD, hloopR] at hdl
      simp only at hdl
      obtain ⟨hc, ho, hu⟩ := hdl
      obtain ⟨Δo, Δe, Δm, k1, k2, k3, k4, k5, k6, k7, k8, k9, k10, k11, k12⟩ :=
        processLoop_spec noFailEnv dest true filesD.length noStop filesD 0 checksD
          ⟨fs₀, resetEnabledCounts cats, 0, [],
            startEvents ⟨src, dest, cats, true⟩ ++ [.log (.foundFiles filesD.length)],
            [], []⟩
      rw [hloopD] at k3 k11
      simp only at k3 k11
      obtain ⟨hfs, hΔm⟩ := k11 trivial
      obtain ⟨hfs₂D, -, hmvsUD⟩ : fs₂D = stD.fs ∧ evsUD = [] ∧ mvsUD = [] := by
        simpa using hunD.symm
      refine ⟨⟨filesD.length, stD.organized, stD.uncategorized.length,
        summaryCategories stD.cats⟩, ?_, ?_, ?_, ?_⟩
      · rw [d1, horgD]
      · rw [e1, horgR]
        simp only [RunOutcome.completed.injEq]
        rw [hc, ho, hu]
      · rw [d6, horgD]
        simp only
        rw [hfs₂D, hfs]
      · rw [d2, horgD]
        simp only
        rw [k3, hΔm, hmvsUD]
        simp

/-- On a two-file snapshot (one matching `.txt` file and one unmatched
file), the dry run and the all-successful real run agree on the summary,
and the dry run leaves the filesystem untouched. -/
theorem dry_run_equivalence_witness :
    ∃ s,
      (runWorker noFailEnv ⟨srcDir, destDir, [catTxt], true⟩
        (.ok [(fileA, true), (fileB, true)]) noStop [srcDir, fileA, fileB]).outcome =
        .completed s ∧
      (runWorker noFailEnv ⟨srcDir, destDir, [catTxt], false⟩
        (.ok [(fileA, true), (fileB, true)]) noStop [srcDir, fileA, fileB]).outcome =
        .completed s ∧
      (runWorker noFailEnv ⟨srcDir, destDir, [catTxt], true⟩
        (.ok [(fileA, true), (fileB, true)]) noStop [srcDir, fileA, fileB]).fs =
        [srcDir, fileA, fileB] ∧
      (runWorker noFailEnv ⟨srcDir, destDir, [catTxt], true⟩
        (.ok [(fileA, true), (fileB, true)]) noStop [srcDir, fileA, fileB]).moves = [] :=
  dry_run_equivalence srcDir destDir [catTxt] [(fileA, true), (fileB, true)]
    [srcDir, fileA, fileB]

end FileOrganizer
